import Mathlib

/-!
Verification of the `apollo-mongoose-datasource` repository.

The development shallowly embeds the repository's predicate compiler
(`src/toMongooseFilterExpression.js`, given here as `src/unnamed/part_002`),
the update-payload cleaner (`src/cleanDocumentUpdate.js`, `src/unnamed/part_004`)
and the data-access facade methods of `src/index.js`.

JavaScript values are modelled by the inductive `JSVal`; JavaScript numbers
are modelled as the exact rationals denoted by the numeric literals the code
manipulates, with `vnan` a separate constructor for `NaN` (the compiler
performs no floating-point rounding, so exact rationals are a faithful
model of every number it ever builds).  Fallible JavaScript code — property
access on `null`/`undefined`, `Object.keys(null)` — is embedded in the
`Except String` monad, whose `error` case models a thrown exception.
Unbounded recursion in `toMongooseFilterExpression` is modelled with an
explicit fuel parameter standing for the JavaScript call stack; exhausting
it models a stack-overflow throw.
-/

/-- A JavaScript value, as manipulated by the repository. -/
inductive JSVal where
  | vstr (s : String)
  | vnum (q : ℚ)
  | vnan
  | vbool (b : Bool)
  | vnull
  | vundefined
  | vobj (fields : List (String × JSVal))
  | varr (elems : List JSVal)

/-- The `kind-of` npm library, required at the top of
`toMongooseFilterExpression.js` and modelled at its interface: it reports the
intrinsic representation kind of a value, distinguishing `array` and `null`
from `object` (`NaN` is a JavaScript number). -/
def kindOf : JSVal → String
  | .vstr _ => "string"
  | .vnum _ => "number"
  | .vnan => "number"
  | .vbool _ => "boolean"
  | .vnull => "null"
  | .vundefined => "undefined"
  | .vobj _ => "object"
  | .varr _ => "array"

/-- JavaScript truthiness (`if (v)`, `!v` negated): `false`, `0`, `NaN`,
the empty string, `null` and `undefined` are falsy; every object and array
is truthy. -/
def jsTruthy : JSVal → Bool
  | .vbool b => b
  | .vnum q => q != 0
  | .vnan => false
  | .vstr s => !s.isEmpty
  | .vnull => false
  | .vundefined => false
  | .vobj _ => true
  | .varr _ => true

/-- JavaScript strict equality `v === lit` against a string literal: only a
string with the same characters compares equal (numbers, objects, `null`,
`undefined` are never strictly equal to a string). -/
def jsStrictEqString (v : JSVal) (lit : String) : Bool :=
  match v with
  | .vstr t => t == lit
  | _ => false

/-- Decimal representation of a rational with a terminating decimal
expansion, in the form JavaScript prints such numbers (`1/2` prints as
`0.5`, integers print with no point).  For a rational with no terminating
expansion (which never arises from the decimal literals this code
manipulates) the expansion is truncated after 17 fractional digits,
approximating the 17-significant-digit printing of IEEE doubles. -/
def ratToDecimalString (q : ℚ) : String :=
  let sign := if q < 0 then "-" else ""
  let a := q.num.natAbs
  let b := q.den
  if b = 1 then sign ++ toString a
  else
    let padFrac : Nat → Nat → String := fun fp k =>
      let s := toString fp
      String.mk (List.replicate (k - s.length) '0') ++ s
    match (List.range 18).find? (fun k => 0 < k && 10 ^ k % b == 0) with
    | some k =>
      let scaled := a * 10 ^ k / b
      sign ++ toString (scaled / 10 ^ k) ++ "." ++ padFrac (scaled % 10 ^ k) k
    | none =>
      let scaled := a * 10 ^ 17 / b
      sign ++ toString (scaled / 10 ^ 17) ++ "." ++ padFrac (scaled % 10 ^ 17) 17

mutual

/-- JavaScript `String(v)` / template-literal conversion on the modelled
value domain: arrays join their stringified elements with commas
(`null`/`undefined` elements become empty), plain objects print as
`[object Object]`. -/
def jsToString : JSVal → String
  | .vstr s => s
  | .vnum q => ratToDecimalString q
  | .vnan => "NaN"
  | .vbool b => if b then "true" else "false"
  | .vnull => "null"
  | .vundefined => "undefined"
  | .vobj _ => "[object Object]"
  | .varr xs => String.intercalate "," (jsToStringList xs)

/-- Stringify the elements of an array for `Array.prototype.join`. -/
def jsToStringList : List JSVal → List String
  | [] => []
  | .vnull :: rest => "" :: jsToStringList rest
  | .vundefined :: rest => "" :: jsToStringList rest
  | x :: rest => jsToString x :: jsToStringList rest

end

/-- Value of a decimal digit character, if it is one. -/
def digitValue (c : Char) : Option Nat :=
  if c.isDigit then some (c.toNat - 48) else none

/-- Value of a hexadecimal digit character, if it is one. -/
def hexDigitValue (c : Char) : Option Nat :=
  if c.isDigit then some (c.toNat - 48)
  else if 'a' ≤ c && c ≤ 'f' then some (c.toNat - 97 + 10)
  else if 'A' ≤ c && c ≤ 'F' then some (c.toNat - 65 + 10)
  else none

/-- Read the longest prefix of digits in the given base, returning its value
and the remaining characters; `none` when there is no leading digit. -/
def readDigits (base : Nat) (dig : Char → Option Nat) :
    List Char → Option (Nat × List Char)
  | [] => none
  | c :: rest =>
    match dig c with
    | none => none
    | some d =>
      match readDigits base dig rest with
      | some (n, rem) =>
        -- value of d followed by the digits giving n over rem
        some (d * base ^ (rest.length - rem.length) + n, rem)
      | none => some (d, rest)

/-- Strip leading and trailing JavaScript whitespace from a character
list (the `parseInt`/`ToNumber` trimming step). -/
def trimChars (cs : List Char) : List Char :=
  ((cs.dropWhile Char.isWhitespace).reverse.dropWhile Char.isWhitespace).reverse

/-- JavaScript `parseInt(s, 0)` on a string: trim, optional sign, optional
`0x`/`0X` hexadecimal prefix (radix 0 behaves like an unspecified radix),
then the longest prefix of digits; no digit at all gives `NaN` (`none`). -/
def parseIntString (s : String) : Option Int :=
  let chars := trimChars s.toList
  let signed : List Char → (Int → Int) × List Char := fun cs =>
    match cs with
    | '-' :: rest => (fun n => -n, rest)
    | '+' :: rest => (fun n => n, rest)
    | _ => (fun n => n, cs)
  let (sign, cs) := signed chars
  match cs with
  | '0' :: 'x' :: rest =>
    (readDigits 16 hexDigitValue rest).map (fun p => sign (p.1 : Int))
  | '0' :: 'X' :: rest =>
    (readDigits 16 hexDigitValue rest).map (fun p => sign (p.1 : Int))
  | _ =>
    (readDigits 10 digitValue cs).map (fun p => sign (p.1 : Int))

/-- JavaScript `parseInt(v, 0)`: the argument is first converted to a string,
then parsed; failure to find any digit yields `NaN`. -/
def parseIntJs (v : JSVal) : JSVal :=
  match parseIntString (jsToString v) with
  | some n => .vnum (n : ℚ)
  | none => .vnan

/-- JavaScript `ToNumber` on a string (used by the `%` operator): an empty or
all-whitespace string is `0`; otherwise an optional sign followed by digits
with an optional fractional part and optional exponent, consuming the whole
string; anything else (including `Infinity`, collapsed here into the `none`
result together with `NaN`, which the `% 1` comparisons treat identically)
is not a finite number. -/
def jsStringToNumber (s : String) : Option ℚ :=
  let chars := trimChars s.toList
  if chars.isEmpty then some 0
  else
    let signed : List Char → (ℚ → ℚ) × List Char := fun cs =>
      match cs with
      | '-' :: rest => (fun q => -q, rest)
      | '+' :: rest => (fun q => q, rest)
      | _ => (fun q => q, cs)
    let (sign, cs) := signed chars
    let readExp : List Char → Option ℚ := fun cs =>
      match cs with
      | [] => some 1
      | 'e' :: rest =>
        match rest with
        | '-' :: ds =>
          match readDigits 10 digitValue ds with
          | some (e, []) => some ((10 : ℚ) ^ e)⁻¹
          | _ => none
        | '+' :: ds =>
          match readDigits 10 digitValue ds with
          | some (e, []) => some ((10 : ℚ) ^ e)
          | _ => none
        | ds =>
          match readDigits 10 digitValue ds with
          | some (e, []) => some ((10 : ℚ) ^ e)
          | _ => none
      | _ => none
    let readFrac : List Char → Option (ℚ × List Char) := fun cs =>
      match cs with
      | '.' :: rest =>
        match readDigits 10 digitValue rest with
        | some (f, rem) =>
          some ((f : ℚ) / (10 : ℚ) ^ (rest.length - rem.length), rem)
        | none => some (0, rest)
      | _ => some (0, cs)
    match cs with
    | '.' :: rest =>
      match readDigits 10 digitValue rest with
      | some (f, rem) =>
        (readExp rem).map (fun e =>
          sign ((f : ℚ) / (10 : ℚ) ^ (rest.length - rem.length) * e))
      | none => none
    | _ =>
      match readDigits 10 digitValue cs with
      | some (n, rem) =>
        match readFrac rem with
        | some (f, rem2) => (readExp rem2).map (fun e => sign (((n : ℚ) + f) * e))
        | none => none
      | none => none

/-- JavaScript `ToNumber` on the modelled value domain, with `none` standing
for the non-finite results (`NaN`, `Infinity`): used only by the `% 1`
comparisons of `getTypeof`, for which all non-finite operands behave alike
(`x % 1` is `NaN` for each of them).  Arrays convert through their joined
string, plain objects to `NaN`. -/
def jsToNumber : JSVal → Option ℚ
  | .vnum q => some q
  | .vnan => none
  | .vbool b => some (if b then 1 else 0)
  | .vnull => some 0
  | .vundefined => none
  | .vstr s => jsStringToNumber s
  | .vobj _ => none
  | .varr xs => jsStringToNumber (String.intercalate "," (jsToStringList xs))

/-- JavaScript `v % 1 === 0`: true exactly when `ToNumber(v)` is a finite
whole number (`NaN % 1` and `Infinity % 1` are `NaN`, and `NaN === 0` is
false). -/
def jsMod1EqZero (v : JSVal) : Bool :=
  match jsToNumber v with
  | some q => q.den == 1
  | none => false

/-- JavaScript `v % 1 !== 0`: true for a finite fractional number and also
for every non-finite `%` result (`NaN !== 0` is true). -/
def jsMod1NeZero (v : JSVal) : Bool :=
  match jsToNumber v with
  | some q => q.den != 1
  | none => true

/-- `Object.keys(v)`: own enumerable property names.  Throws a `TypeError`
on `null`/`undefined`; arrays and strings enumerate their indices; number
and boolean primitives have no own properties. -/
def jsObjectKeysE : JSVal → Except String (List String)
  | .vnull => .error "TypeError: Cannot convert undefined or null to object"
  | .vundefined => .error "TypeError: Cannot convert undefined or null to object"
  | .vobj fields => .ok (fields.map Prod.fst)
  | .varr xs => .ok ((List.range xs.length).map toString)
  | .vstr s => .ok ((List.range s.length).map toString)
  | _ => .ok []

/-- Property read `v[key]`, with `key = none` modelling access through the
`undefined` value (which JavaScript converts to the property name
`"undefined"`).  Throws a `TypeError` on a `null`/`undefined` receiver;
a missing property reads as `undefined`. -/
def jsIndexE (v : JSVal) (key : Option String) : Except String JSVal :=
  let k := match key with
    | some k => k
    | none => "undefined"
  match v with
  | .vnull => .error "TypeError: Cannot read properties of null"
  | .vundefined => .error "TypeError: Cannot read properties of undefined"
  | .vobj fields => .ok ((fields.lookup k).getD .vundefined)
  | .varr xs =>
    .ok (if k == "length" then .vnum (xs.length : ℚ)
         else match k.toNat? with
           | some i => if toString i == k then (xs.getD i .vundefined) else .vundefined
           | none => .vundefined)
  | .vstr s =>
    .ok (if k == "length" then .vnum (s.length : ℚ)
         else match k.toNat? with
           | some i =>
             if toString i == k then
               match s.toList.get? i with
               | some c => .vstr (String.mk [c])
               | none => .vundefined
             else .vundefined
           | none => .vundefined)
  | _ => .ok .vundefined

/-- Property write `target[k] = v` on an object's field list: overwrite in
place when the key exists (JavaScript keeps the key's insertion position),
append otherwise. -/
def setKey (fields : List (String × JSVal)) (k : String) (v : JSVal) :
    List (String × JSVal) :=
  if fields.any (fun p => p.1 == k) then
    fields.map (fun p => if p.1 == k then (p.1, v) else p)
  else fields ++ [(k, v)]

/-- `Object.assign(target, src)` restricted to its effect on the target's
field list: copy each own enumerable property of the source in order.  An
array source contributes its index properties, a string source its
characters; `null`, `undefined` and other primitives contribute nothing. -/
def objAssign (target : List (String × JSVal)) (src : JSVal) :
    List (String × JSVal) :=
  match src with
  | .vobj fs => fs.foldl (fun t p => setKey t p.1 p.2) target
  | .varr xs =>
    (xs.enum).foldl (fun t p => setKey t (toString p.1) p.2) target
  | .vstr s =>
    (s.toList.enum).foldl
      (fun t p => setKey t (toString p.1) (.vstr (String.mk [p.2]))) target
  | _ => target

/-- `getTypeof` from `toMongooseFilterExpression.js`: starts from
`kindOf(fieldType)` and refines to `int`/`float` when `fieldType` is
strictly equal to the string `'number'` and `fieldValue % 1` is zero
(respectively nonzero).  NOTE: the compiler driver invokes this function
with a single argument — the leaf value itself — so in every actual call
`fieldType` is that value and `fieldValue` is `undefined`. -/
def getTypeof (fieldType fieldValue : JSVal) : String :=
  let newType := kindOf fieldType
  let newType :=
    if jsStrictEqString fieldType "number" && jsMod1EqZero fieldValue then
      "int"
    else newType
  let newType :=
    if jsStrictEqString fieldType "number" && jsMod1NeZero fieldValue then
      "float"
    else newType
  newType

/-- `convertContains`: a `$regex`/`$options` node for string-typed values,
the value unchanged otherwise. -/
def convertContains (fieldType : String) (fieldValue : JSVal) : JSVal :=
  if fieldType != "string" then fieldValue
  else .vobj [("$regex", fieldValue), ("$options", .vstr "i")]

/-- `convertNotContains`: a `$not`-wrapped `$regex` node for string-typed
values, the value unchanged otherwise. -/
def convertNotContains (fieldType : String) (fieldValue : JSVal) : JSVal :=
  if fieldType != "string" then fieldValue
  else .vobj [("$not", .vobj [("$regex", fieldValue), ("$options", .vstr "i")])]

/-- `convertStartsWith`: anchors the (template-stringified) value with `^`. -/
def convertStartsWith (fieldType : String) (fieldValue : JSVal) : JSVal :=
  if fieldType != "string" then fieldValue
  else .vobj [("$regex", .vstr ("^" ++ jsToString fieldValue)),
              ("$options", .vstr "i")]

/-- `convertEndsWith`: anchors the (template-stringified) value with `$`. -/
def convertEndsWith (fieldType : String) (fieldValue : JSVal) : JSVal :=
  if fieldType != "string" then fieldValue
  else .vobj [("$regex", .vstr (jsToString fieldValue ++ "$")),
              ("$options", .vstr "i")]

/-- `convertIn`: an `$in` node for array-typed values, the value unchanged
otherwise. -/
def convertIn (fieldType : String) (fieldValue : JSVal) : JSVal :=
  if fieldType != "array" then fieldValue
  else .vobj [("$in", fieldValue)]

/-- `convertLogicalOperator`, parameterised over the recursive compile so
the knot can be tied through the fuelled driver: builds
`{"$" ++ fieldName: [recursively compiled statements]}` for an array-typed
value; a non-array value with array `fieldType` would make the source's
`fieldValue.forEach` throw (unreachable from the two call sites, which pass
`fieldType = kindOf fieldValue`). -/
def convertLogicalOperatorF (recurse : JSVal → Except String JSVal)
    (fieldType : String) (fieldValue : JSVal) (fieldName : String) :
    Except String JSVal :=
  if fieldType != "array" then .ok fieldValue
  else
    match fieldValue with
    | .varr statements => do
      let compiled ← statements.mapM recurse
      .ok (.vobj [("$" ++ fieldName, .varr compiled)])
    | _ => .error "TypeError: fieldValue.forEach is not a function"

/-- `convertSearchOperator`, parameterised over the recursive compile.  The
operator name is the first enumerated key of the operator clause and may be
absent (`none`, JavaScript `undefined`), which like every unrecognized
operator falls through to the value itself. -/
def convertSearchOperatorF (recurse : JSVal → Except String JSVal)
    (fieldName : Option String) (fieldType : String) (fieldValue : JSVal) :
    Except String JSVal :=
  if fieldName == some "ne" then .ok (.vobj [("$ne", fieldValue)])
  else if fieldName == some "eq" then .ok fieldValue
  else if fieldName == some "le" then .ok (.vobj [("$lte", fieldValue)])
  else if fieldName == some "lt" then .ok (.vobj [("$lt", fieldValue)])
  else if fieldName == some "ge" then .ok (.vobj [("$gte", fieldValue)])
  else if fieldName == some "gt" then .ok (.vobj [("$gt", fieldValue)])
  else if fieldName == some "exists" then
    .ok (.vobj [("$exists", parseIntJs fieldValue)])
  else if fieldName == some "contains" then
    .ok (convertContains fieldType fieldValue)
  else if fieldName == some "notContains" then
    .ok (convertNotContains fieldType fieldValue)
  else if fieldName == some "between" then do
    let lo ← jsIndexE fieldValue (some "0")
    let hi ← jsIndexE fieldValue (some "1")
    .ok (.vobj [("$gte", lo), ("$lte", hi)])
  else if fieldName == some "startsWith" then
    .ok (convertStartsWith fieldType fieldValue)
  else if fieldName == some "endsWith" then
    .ok (convertEndsWith fieldType fieldValue)
  else if fieldName == some "in" then .ok (convertIn fieldType fieldValue)
  else if fieldName == some "or" then
    convertLogicalOperatorF recurse fieldType fieldValue "or"
  else if fieldName == some "and" then
    convertLogicalOperatorF recurse fieldType fieldValue "and"
  else .ok fieldValue

/-- The body of the driver's `fields.forEach` callback, processing a single
field of the filter into the accumulated output object.  In source order:
the kind of the field's value, the first key of that value (throwing on
`null`/`undefined`, as `Object.keys` does), the leaf value under that key,
and its `getTypeof` classification (invoked, as in the source, with the
single argument `filter[field][fieldSearchType]`, so `fieldValue` inside
`getTypeof` is `undefined`); then a dispatch on the kind: an object value
goes through the operator table under the field name, an array value goes
through the operator table under the field's own name and is merged into
the accumulator with `Object.assign`, anything else is transferred
unchanged. -/
def compileFieldValue (recurse : JSVal → Except String JSVal)
    (transferedFilter : List (String × JSVal)) (field : String) (fv : JSVal) :
    Except String (List (String × JSVal)) := do
  let isTypeOf := kindOf fv
  let innerKeys ← jsObjectKeysE fv
  let fieldSearchType := innerKeys.head?
  let fieldValue ← jsIndexE fv fieldSearchType
  let fieldType := getTypeof fieldValue .vundefined
  if isTypeOf == "object" then do
    let node ← convertSearchOperatorF recurse fieldSearchType fieldType fieldValue
    pure (setKey transferedFilter field node)
  else if isTypeOf == "array" then do
    let node ← convertSearchOperatorF recurse (some field) "array" fv
    pure (objAssign transferedFilter node)
  else pure (setKey transferedFilter field fv)

/-- The field step is the read of the field's value followed by
`compileFieldValue`. -/
def compileFieldStep (recurse : JSVal → Except String JSVal) (filter : JSVal)
    (transferedFilter : List (String × JSVal)) (field : String) :
    Except String (List (String × JSVal)) := do
  let fv ← jsIndexE filter (some field)
  compileFieldValue recurse transferedFilter field fv

/-- The compiler driver `toMongooseFilterExpression(filter = {})`.  The
fuel argument models the JavaScript call stack: each recursive compile of a
logical-combinator branch descends one level, and fuel 0 models the
stack-overflow throw.  The per-field work is `compileFieldStep` above. -/
def toMongooseFilterExpression : Nat → JSVal → Except String JSVal
  | 0, _ => .error "RangeError: Maximum call stack size exceeded"
  | fuel + 1, filter0 =>
    let filter := match filter0 with
      | .vundefined => .vobj []
      | f => f
    match jsObjectKeysE filter with
    | .error e => .error e
    | .ok fields => do
      let transferedFilter ← fields.foldlM
        (compileFieldStep (fun v => toMongooseFilterExpression fuel v) filter)
        []
      pure (.vobj transferedFilter)

/-! ## Object identity

A minimal heap of JavaScript objects, used to reason about the parts of the
facade whose behaviour depends on reference identity rather than structure:
an allocated object is a slot in the heap and a reference is its index. -/

/-- Heap of allocated JavaScript objects. -/
abbrev ObjHeap := List JSVal

/-- Evaluating an object literal: allocate a fresh slot holding the given
structure and return the extended heap with the fresh reference. -/
def allocObj (h : ObjHeap) (v : JSVal) : ObjHeap × Nat :=
  (h ++ [v], h.length)

/-- JavaScript strict equality between two object references compares the
references themselves. -/
def refStrictEq (a b : Nat) : Bool := a == b

/-- Which count the paginated `list`/`listAggregation` methods issue. -/
inductive CountMethod where
  | estimated
  | filtered

instance : DecidableEq CountMethod := fun a b => by
  cases a <;> cases b <;> first
    | exact isTrue rfl
    | exact isFalse (fun h => CountMethod.noConfusion h)

/-- The count selection of `list` and `listAggregation` in `src/index.js`:
`if (datafilter === {}) { estimatedDocumentCount } else { countDocuments }`.
The expression `{}` evaluates to a freshly allocated empty object, and `===`
on two objects compares references. -/
def chooseCountMethod (h : ObjHeap) (datafilter : Nat) :
    CountMethod × ObjHeap :=
  let fresh := allocObj h (.vobj [])
  (if refStrictEq datafilter fresh.2 then .estimated else .filtered, fresh.1)

/-- The value of `datafilter === {}` in `list`/`listAggregation` for any
previously allocated `datafilter`: comparing an existing reference with a
freshly allocated empty object literal is always false.  This constant is
the residue of that comparison in the reference-free method models below;
`refStrictEq_alloc_false` justifies it. -/
def strictEqFreshEmptyObject (_datafilter : JSVal) : Bool := false

/-! ## cleanDocumentUpdate (`src/unnamed/part_004`) -/

/-- `cleanDocumentUpdate(documentUpdate)` as a value transformer: for each
own key, `delete documentUpdate[key]` when the value is falsy.  On the
object's field list this keeps exactly the truthy-valued fields, in order.
`Object.keys` throws on `null`/`undefined`; on other primitives it
enumerates no deletable key (`delete` on a string index is a sloppy-mode
no-op), and on an array the falsy elements become holes, which read back as
`undefined`. -/
def cleanDocumentUpdateVal : JSVal → Except String JSVal
  | .vnull => .error "TypeError: Cannot convert undefined or null to object"
  | .vundefined => .error "TypeError: Cannot convert undefined or null to object"
  | .vobj fields => .ok (.vobj (fields.filter (fun p => jsTruthy p.2)))
  | .varr xs => .ok (.varr (xs.map (fun x => if jsTruthy x then x else .vundefined)))
  | v => .ok v

/-- `cleanDocumentUpdate` acting on the heap: the keys with falsy values are
deleted from the object in its slot, and the very same reference is
returned (`return documentUpdate`). -/
def cleanDocumentUpdateStore (h : ObjHeap) (r : Nat) : ObjHeap × Nat :=
  (h.set r
    (match h.getD r .vundefined with
     | .vobj fields => .vobj (fields.filter (fun p => jsTruthy p.2))
     | v => v),
   r)

/-! ## The data-access facade (`src/index.js`)

Each `async` method is modelled as a function of the results of the awaited
database operations it performs, which are passed in as `Except JSVal JSVal`
values (`error` = the underlying promise rejected / the call threw, carrying
the thrown value).  The method's own promise is a `POutcome`: JavaScript
fulfils an `async` function's promise with the returned value and rejects it
with any value thrown outside a `try`/`catch`. -/

/-- Settled state of the promise returned by an `async` method. -/
inductive POutcome where
  | fulfilled (v : JSVal)
  | rejected (e : JSVal)

/-- Whether a promise outcome is a fulfilment. -/
def POutcome.isFulfilled : POutcome → Bool
  | .fulfilled _ => true
  | .rejected _ => false

/-- `findOne`: the whole body is inside `try`, and the `catch` returns the
error as the method's value. -/
def findOneMethod (dbFindOne : Except JSVal JSVal) : POutcome :=
  match dbFindOne with
  | .ok doc => .fulfilled doc
  | .error err => .fulfilled err

/-- `find`: same `try`/`catch`-return shape as `findOne`. -/
def findMethod (dbFind : Except JSVal JSVal) : POutcome :=
  match dbFind with
  | .ok docs => .fulfilled docs
  | .error err => .fulfilled err

/-- `deleteMany`: same `try`/`catch`-return shape. -/
def deleteManyMethod (dbDeleteMany : Except JSVal JSVal) : POutcome :=
  match dbDeleteMany with
  | .ok res => .fulfilled res
  | .error err => .fulfilled err

/-- `all(options)`: compiles `options.filter` BEFORE entering `try`, so a
compiler throw escapes as a rejection; the awaited `find` failure is caught
and returned. -/
def allMethod (fuel : Nat) (filter : JSVal)
    (dbFind : JSVal → Except JSVal JSVal) : POutcome :=
  match toMongooseFilterExpression fuel filter with
  | .error e => .rejected (.vstr e)
  | .ok compiled =>
    match dbFind compiled with
    | .ok docs => .fulfilled docs
    | .error err => .fulfilled err

/-- `getById`: `findById` inside `try`; the `catch` deliberately masks the
error (a string that cannot be cast to an ObjectId) by returning `null`. -/
def getByIdMethod (dbFindById : Except JSVal JSVal) : POutcome :=
  match dbFindById with
  | .ok doc => .fulfilled doc
  | .error _ => .fulfilled .vnull

/-- `add(document)`: `new this.Model(document)` runs BEFORE `try`, so a
throwing constructor rejects; a failing `save` is caught and returned. -/
def addMethod (modelCtor : Except JSVal JSVal)
    (dbSave : JSVal → Except JSVal JSVal) : POutcome :=
  match modelCtor with
  | .error e => .rejected e
  | .ok newDocument =>
    match dbSave newDocument with
    | .ok _ => .fulfilled newDocument
    | .error err => .fulfilled err

/-- `delete(id)`: awaits `getById` (which never rejects), then deletes only
a truthy document; a missing or uncastable id yields `null`. -/
def deleteMethod (dbFindById dbDeleteOne : Except JSVal JSVal) : POutcome :=
  match getByIdMethod dbFindById with
  | .rejected e => .fulfilled e
  | .fulfilled document =>
    if jsTruthy document then
      match dbDeleteOne with
      | .ok res => .fulfilled res
      | .error err => .fulfilled err
    else .fulfilled .vnull

/-- `update(id, documentUpdate)`: awaits `getById`, merges the update into
the fetched document with `Object.assign` and saves; a missing or
uncastable id yields `null`. -/
def updateMethod (dbFindById : Except JSVal JSVal) (documentUpdate : JSVal)
    (dbSave : JSVal → Except JSVal JSVal) : POutcome :=
  match getByIdMethod dbFindById with
  | .rejected e => .fulfilled e
  | .fulfilled document =>
    if jsTruthy document then
      let merged := match document with
        | .vobj fields => .vobj (objAssign fields documentUpdate)
        | d => d
      match dbSave merged with
      | .ok _ => .fulfilled merged
      | .error err => .fulfilled err
    else .fulfilled .vnull

/-- `deleteManyById(id)`: builds the ObjectId list (a throwing cast is
inside `try` and therefore caught) and deletes by `$in`. -/
def deleteManyByIdMethod (id : JSVal)
    (objectIdCast : JSVal → Except JSVal JSVal)
    (dbDeleteMany : List JSVal → Except JSVal JSVal) : POutcome :=
  let body : Except JSVal JSVal := do
    let idList ← match id with
      | .vstr _ => (objectIdCast id).map (fun o => [o])
      | .varr xs => xs.mapM objectIdCast
      | _ => .ok []
    dbDeleteMany idList
  match body with
  | .ok res => .fulfilled res
  | .error err => .fulfilled err

/-- `updateMany(id, documentUpdate)`: ObjectId casts, the document cleaning
and the `$set` update are all inside `try`. -/
def updateManyMethod (id : JSVal) (documentUpdate : JSVal)
    (objectIdCast : JSVal → Except JSVal JSVal)
    (dbUpdateMany : List JSVal → JSVal → Except JSVal JSVal) : POutcome :=
  let body : Except JSVal JSVal := do
    let idList ← match id with
      | .vstr _ => (objectIdCast id).map (fun o => [o])
      | .varr xs => xs.mapM objectIdCast
      | _ => .ok []
    let cleaned ← (cleanDocumentUpdateVal documentUpdate).mapError
      (fun e => JSVal.vstr e)
    dbUpdateMany idList (.vobj [("$set", cleaned)])
  match body with
  | .ok res => .fulfilled res
  | .error err => .fulfilled err

/-- `findOneAndUpdate(id, documentUpdate)`: the ObjectId construction and
the upserting update are inside `try`. -/
def findOneAndUpdateMethod (objectIdNew : Except JSVal JSVal)
    (dbFindOneAndUpdate : JSVal → Except JSVal JSVal) : POutcome :=
  let body : Except JSVal JSVal := do
    let oid ← objectIdNew
    dbFindOneAndUpdate oid
  match body with
  | .ok doc => .fulfilled doc
  | .error err => .fulfilled err

/-- JavaScript `Math.ceil(a / b)` with `a` an arbitrary awaited value and
`b` a number: any non-numeric operand or a zero divisor produces a
non-finite result, collapsed here into `NaN` (the methods never divide by
zero when called with a positive `limit`). -/
def jsCeilDiv (a : JSVal) (b : ℚ) : JSVal :=
  match jsToNumber a with
  | some q => if b = 0 then .vnan else .vnum (⌈q / b⌉ : ℚ)
  | none => .vnan

/-- JavaScript `p < v` with `p` a number: comparisons against `NaN` are
false. -/
def jsLtNum (p : ℚ) (v : JSVal) : Bool :=
  match jsToNumber v with
  | some q => decide (p < q)
  | none => false

/-- The pagination object returned by `list`/`listAggregation`. -/
def paginationResult (totalCount : JSVal) (page limit : ℚ) (node : JSVal) :
    JSVal :=
  let totalPages := jsCeilDiv totalCount limit
  let hasNext := jsLtNum page totalPages
  .vobj
    [("totalCount", totalCount),
     ("currentPage", .vnum page),
     ("hasPrevPage", .vbool (decide (1 < page))),
     ("hasNextPage", .vbool hasNext),
     ("totalPages", totalPages),
     ("prevPage", if 1 < page then .vnum (page - 1) else .vnum 0),
     ("nextPage", if hasNext then .vnum (page + 1) else .vnum 0),
     ("node", node)]

/-- `list(options)`: the filter is compiled BEFORE `try` (a compiler throw
rejects).  Inside `try` the count is chosen by `datafilter === {}` — which
is reference equality against a fresh literal, hence always the filtered
count — then the page of documents is fetched and the pagination object
returned; every awaited failure is caught and returned as the value. -/
def listMethod (fuel : Nat) (filter : JSVal) (page limit : ℚ)
    (dbEstimatedCount dbCountDocuments : Except JSVal JSVal)
    (dbFind : JSVal → Except JSVal JSVal) : POutcome :=
  match toMongooseFilterExpression fuel filter with
  | .error e => .rejected (.vstr e)
  | .ok datafilter =>
    let counted :=
      if strictEqFreshEmptyObject datafilter then dbEstimatedCount
      else dbCountDocuments
    match counted with
    | .error err => .fulfilled err
    | .ok totalCount =>
      match dbFind datafilter with
      | .error err => .fulfilled err
      | .ok node => .fulfilled (paginationResult totalCount page limit node)

/-- `listAggregation(options, aggregation)`: same pre-`try` compile and same
always-filtered count selection as `list`; the `$match` stage is prepended
exactly in the (always taken) filtered branch, the `$sort` stage when the
sort value is truthy, then `$skip`/`$limit` are appended and the pipeline
is run. -/
def listAggregationMethod (fuel : Nat) (filter : JSVal) (page limit : ℚ)
    (sort : JSVal) (aggregation : List JSVal)
    (dbEstimatedCount dbCountDocuments : Except JSVal JSVal)
    (dbAggregate : List JSVal → Except JSVal JSVal) : POutcome :=
  match toMongooseFilterExpression fuel filter with
  | .error e => .rejected (.vstr e)
  | .ok datafilter =>
    let skip := (page - 1) * limit
    if strictEqFreshEmptyObject datafilter then
      match dbEstimatedCount with
      | .error err => .fulfilled err
      | .ok totalCount =>
        let sortAggregation :=
          if jsTruthy sort then [JSVal.vobj [("$sort", sort)]] else []
        let pipeline := ([] : List JSVal) ++ aggregation ++ sortAggregation ++
          [.vobj [("$skip", .vnum skip)], .vobj [("$limit", .vnum limit)]]
        match dbAggregate pipeline with
        | .error err => .fulfilled err
        | .ok node => .fulfilled (paginationResult totalCount page limit node)
    else
      match dbCountDocuments with
      | .error err => .fulfilled err
      | .ok totalCount =>
        let firstAggregationMatch := [JSVal.vobj [("$match", datafilter)]]
        let sortAggregation :=
          if jsTruthy sort then [JSVal.vobj [("$sort", sort)]] else []
        let pipeline := firstAggregationMatch ++ aggregation ++
          sortAggregation ++
          [.vobj [("$skip", .vnum skip)], .vobj [("$limit", .vnum limit)]]
        match dbAggregate pipeline with
        | .error err => .fulfilled err
        | .ok node => .fulfilled (paginationResult totalCount page limit node)

/-! ## Mutable-heap model of the compiler

To state the frame claim — the compiler never mutates its input and returns
a freshly constructed top-level object — the compiler is re-embedded over an
explicit heap of mutable JavaScript objects: every object or array is a
heap slot, a reference is the slot's index, and the operations below mirror
`toMongooseFilterExpression.js` statement by statement, with every object
or array literal an allocation and every property write a slot update. -/

/-- A primitive (non-object) JavaScript value. -/
inductive HPrim where
  | hstr (s : String)
  | hnum (q : ℚ)
  | hnan
  | hbool (b : Bool)
  | hnull
  | hundefined
deriving DecidableEq

/-- A JavaScript runtime value: a primitive or a reference into the heap. -/
inductive HVal where
  | prim (p : HPrim)
  | ref (r : Nat)
deriving DecidableEq

/-- A heap cell: a plain object (ordered fields) or an array. -/
inductive HObj where
  | hobj (fields : List (String × HVal))
  | harr (elems : List HVal)

/-- The heap: slot `r` holds the object allocated as reference `r`. -/
abbrev SHeap := List HObj

/-- Evaluate an object or array literal: allocate a fresh slot. -/
def hAlloc (h : SHeap) (o : HObj) : SHeap × Nat :=
  (h ++ [o], h.length)

/-- `kind-of` over the heap: dereference to distinguish array from object. -/
def hKindOf (h : SHeap) : HVal → String
  | .prim (.hstr _) => "string"
  | .prim (.hnum _) => "number"
  | .prim .hnan => "number"
  | .prim (.hbool _) => "boolean"
  | .prim .hnull => "null"
  | .prim .hundefined => "undefined"
  | .ref r =>
    match h.get? r with
    | some (.hobj _) => "object"
    | some (.harr _) => "array"
    | none => "object"

/-- `String(v)` for a primitive. -/
def hPrimToString : HPrim → String
  | .hstr s => s
  | .hnum q => ratToDecimalString q
  | .hnan => "NaN"
  | .hbool b => if b then "true" else "false"
  | .hnull => "null"
  | .hundefined => "undefined"

/-- Stringify array elements for `join` (`null`/`undefined` become empty). -/
def hToStringElems (toStr : HVal → String) (xs : List HVal) : List String :=
  xs.map (fun x =>
    match x with
    | .prim .hnull => ""
    | .prim .hundefined => ""
    | v => toStr v)

/-- `String(v)` over the heap; the fuel bounds reference chains (callers
pass `h.length + 1`, enough for every acyclic heap — the compiler only ever
receives acyclic parsed request payloads). -/
def hToString (h : SHeap) : Nat → HVal → String
  | _, .prim p => hPrimToString p
  | 0, .ref _ => ""
  | fuel + 1, .ref r =>
    match h.get? r with
    | some (.hobj _) => "[object Object]"
    | some (.harr xs) =>
      String.intercalate "," (hToStringElems (fun v => hToString h fuel v) xs)
    | none => "undefined"

/-- `ToNumber` over the heap (for the `% 1` tests): arrays convert through
their joined string, plain objects to `NaN` (`none`). -/
def hToNumber (h : SHeap) : HVal → Option ℚ
  | .prim (.hstr s) => jsStringToNumber s
  | .prim (.hnum q) => some q
  | .prim .hnan => none
  | .prim (.hbool b) => some (if b then 1 else 0)
  | .prim .hnull => some 0
  | .prim .hundefined => none
  | .ref r =>
    match h.get? r with
    | some (.harr xs) =>
      jsStringToNumber (String.intercalate ","
        (hToStringElems (fun v => hToString h (h.length + 1) v) xs))
    | _ => none

/-- `v % 1 === 0` over the heap. -/
def hMod1EqZero (h : SHeap) (v : HVal) : Bool :=
  match hToNumber h v with
  | some q => q.den == 1
  | none => false

/-- `v % 1 !== 0` over the heap. -/
def hMod1NeZero (h : SHeap) (v : HVal) : Bool :=
  match hToNumber h v with
  | some q => q.den != 1
  | none => true

/-- Strict equality against a string literal: references never compare
equal to a string. -/
def hStrictEqString (v : HVal) (lit : String) : Bool :=
  match v with
  | .prim (.hstr t) => t == lit
  | _ => false

/-- `getTypeof` over the heap, exactly as in the pure model (one-argument
call sites pass `undefined` for `fieldValue`). -/
def hGetTypeof (h : SHeap) (fieldType fieldValue : HVal) : String :=
  let newType := hKindOf h fieldType
  let newType :=
    if hStrictEqString fieldType "number" && hMod1EqZero h fieldValue then
      "int"
    else newType
  let newType :=
    if hStrictEqString fieldType "number" && hMod1NeZero h fieldValue then
      "float"
    else newType
  newType

/-- `parseInt(v, 0)` over the heap. -/
def hParseIntJs (h : SHeap) (v : HVal) : HPrim :=
  match parseIntString (hToString h (h.length + 1) v) with
  | some n => .hnum (n : ℚ)
  | none => .hnan

/-- `Object.keys` over the heap. -/
def hObjectKeysE (h : SHeap) : HVal → Except String (List String)
  | .prim .hnull => .error "TypeError: Cannot convert undefined or null to object"
  | .prim .hundefined => .error "TypeError: Cannot convert undefined or null to object"
  | .prim (.hstr s) => .ok ((List.range s.length).map toString)
  | .prim _ => .ok []
  | .ref r =>
    match h.get? r with
    | some (.hobj fields) => .ok (fields.map Prod.fst)
    | some (.harr xs) => .ok ((List.range xs.length).map toString)
    | none => .ok []

/-- Property read over the heap. -/
def hIndexE (h : SHeap) (v : HVal) (key : Option String) : Except String HVal :=
  let k := match key with
    | some k => k
    | none => "undefined"
  match v with
  | .prim .hnull => .error "TypeError: Cannot read properties of null"
  | .prim .hundefined => .error "TypeError: Cannot read properties of undefined"
  | .prim (.hstr s) =>
    .ok (if k == "length" then .prim (.hnum (s.length : ℚ))
         else match k.toNat? with
           | some i =>
             if toString i == k then
               match s.toList.get? i with
               | some c => .prim (.hstr (String.mk [c]))
               | none => .prim .hundefined
             else .prim .hundefined
           | none => .prim .hundefined)
  | .prim _ => .ok (.prim .hundefined)
  | .ref r =>
    match h.get? r with
    | some (.hobj fields) => .ok ((fields.lookup k).getD (.prim .hundefined))
    | some (.harr xs) =>
      .ok (if k == "length" then .prim (.hnum (xs.length : ℚ))
           else match k.toNat? with
             | some i =>
               if toString i == k then (xs.getD i (.prim .hundefined))
               else .prim .hundefined
             | none => .prim .hundefined)
    | none => .ok (.prim .hundefined)

/-- Property write on an object's field list (insertion position kept). -/
def setKeyH (fields : List (String × HVal)) (k : String) (v : HVal) :
    List (String × HVal) :=
  if fields.any (fun p => p.1 == k) then
    fields.map (fun p => if p.1 == k then (p.1, v) else p)
  else fields ++ [(k, v)]

/-- Property write `h[r][k] = v` on the heap (no-op for a non-object or
out-of-range slot). -/
def hSetKey (h : SHeap) (r : Nat) (k : String) (v : HVal) : SHeap :=
  h.set r
    (match h.getD r (.hobj []) with
     | .hobj fields => .hobj (setKeyH fields k v)
     | o => o)

/-- `Array.prototype.push` on the heap slot `r`. -/
def hPush (h : SHeap) (r : Nat) (v : HVal) : SHeap :=
  h.set r
    (match h.getD r (.harr []) with
     | .harr xs => .harr (xs ++ [v])
     | o => o)

/-- `Object.assign(target, src)` on the heap: copy the source's own
enumerable properties into slot `tRef` in order. -/
def hObjAssign (h : SHeap) (tRef : Nat) : HVal → SHeap
  | .ref s =>
    (match h.getD s (.hobj []) with
     | .hobj fs => fs.foldl (fun hh p => hSetKey hh tRef p.1 p.2) h
     | .harr xs =>
       (xs.enum).foldl (fun hh p => hSetKey hh tRef (toString p.1) p.2) h)
  | .prim (.hstr str) =>
    (str.toList.enum).foldl
      (fun hh p =>
        hSetKey hh tRef (toString p.1) (.prim (.hstr (String.mk [p.2])))) h
  | _ => h

/-- The `forEach` push loop of `convertLogicalOperator`: compile each
statement and push the result onto the fresh array slot `aref`. -/
def pushCompiledStore (recurse : SHeap → HVal → Except String (SHeap × HVal))
    (aref : Nat) :
    List HVal → SHeap → Except String SHeap
  | [], h => .ok h
  | stmt :: rest, h => do
    let c ← recurse h stmt
    pushCompiledStore recurse aref rest (hPush c.1 aref c.2)

/-- `convertLogicalOperator` on the heap: allocate the `[]` literal, then
the `{"$" ++ fieldName: []}` literal, then push each recursively compiled
statement onto the fresh array. -/
def convertLogicalOperatorStore
    (recurse : SHeap → HVal → Except String (SHeap × HVal))
    (fieldType : String) (fieldValue : HVal) (fieldName : String)
    (h : SHeap) : Except String (SHeap × HVal) :=
  if fieldType != "array" then .ok (h, fieldValue)
  else
    match fieldValue with
    | .ref r =>
      match h.get? r with
      | some (.harr statements) =>
        let a := hAlloc h (.harr [])
        let o := hAlloc a.1 (.hobj [("$" ++ fieldName, .ref a.2)])
        (pushCompiledStore recurse a.2 statements o.1).map
          (fun h3 => (h3, .ref o.2))
      | _ => .error "TypeError: fieldValue.forEach is not a function"
    | _ => .error "TypeError: fieldValue.forEach is not a function"

/-- `convertSearchOperator` on the heap: every produced operator node is a
fresh allocation; pass-through cases return the value (possibly an old
reference) without touching the heap. -/
def convertSearchOperatorStore
    (recurse : SHeap → HVal → Except String (SHeap × HVal))
    (fieldName : Option String) (fieldType : String) (fieldValue : HVal)
    (h : SHeap) : Except String (SHeap × HVal) :=
  if fieldName == some "ne" then
    let a := hAlloc h (.hobj [("$ne", fieldValue)])
    .ok (a.1, .ref a.2)
  else if fieldName == some "eq" then .ok (h, fieldValue)
  else if fieldName == some "le" then
    let a := hAlloc h (.hobj [("$lte", fieldValue)])
    .ok (a.1, .ref a.2)
  else if fieldName == some "lt" then
    let a := hAlloc h (.hobj [("$lt", fieldValue)])
    .ok (a.1, .ref a.2)
  else if fieldName == some "ge" then
    let a := hAlloc h (.hobj [("$gte", fieldValue)])
    .ok (a.1, .ref a.2)
  else if fieldName == some "gt" then
    let a := hAlloc h (.hobj [("$gt", fieldValue)])
    .ok (a.1, .ref a.2)
  else if fieldName == some "exists" then
    let a := hAlloc h (.hobj [("$exists", .prim (hParseIntJs h fieldValue))])
    .ok (a.1, .ref a.2)
  else if fieldName == some "contains" then
    if fieldType != "string" then .ok (h, fieldValue)
    else
      let a := hAlloc h
        (.hobj [("$regex", fieldValue), ("$options", .prim (.hstr "i"))])
      .ok (a.1, .ref a.2)
  else if fieldName == some "notContains" then
    if fieldType != "string" then .ok (h, fieldValue)
    else
      let inner := hAlloc h
        (.hobj [("$regex", fieldValue), ("$options", .prim (.hstr "i"))])
      let outer := hAlloc inner.1 (.hobj [("$not", .ref inner.2)])
      .ok (outer.1, .ref outer.2)
  else if fieldName == some "between" then do
    let lo ← hIndexE h fieldValue (some "0")
    let hi ← hIndexE h fieldValue (some "1")
    let a := hAlloc h (.hobj [("$gte", lo), ("$lte", hi)])
    .ok (a.1, .ref a.2)
  else if fieldName == some "startsWith" then
    if fieldType != "string" then .ok (h, fieldValue)
    else
      let a := hAlloc h
        (.hobj [("$regex",
                 .prim (.hstr ("^" ++ hToString h (h.length + 1) fieldValue))),
                ("$options", .prim (.hstr "i"))])
      .ok (a.1, .ref a.2)
  else if fieldName == some "endsWith" then
    if fieldType != "string" then .ok (h, fieldValue)
    else
      let a := hAlloc h
        (.hobj [("$regex",
                 .prim (.hstr (hToString h (h.length + 1) fieldValue ++ "$"))),
                ("$options", .prim (.hstr "i"))])
      .ok (a.1, .ref a.2)
  else if fieldName == some "in" then
    if fieldType != "array" then .ok (h, fieldValue)
    else
      let a := hAlloc h (.hobj [("$in", fieldValue)])
      .ok (a.1, .ref a.2)
  else if fieldName == some "or" then
    convertLogicalOperatorStore recurse fieldType fieldValue "or" h
  else if fieldName == some "and" then
    convertLogicalOperatorStore recurse fieldType fieldValue "and" h
  else .ok (h, fieldValue)

/-- The per-field work of the driver, on the heap: reads, classification
and the dispatch writing into the `transferedFilter` slot `tRef`. -/
def compileFieldValueStore
    (recurse : SHeap → HVal → Except String (SHeap × HVal))
    (tRef : Nat) (field : String) (fv : HVal) (h : SHeap) :
    Except String SHeap := do
  let isTypeOf := hKindOf h fv
  let innerKeys ← hObjectKeysE h fv
  let fieldSearchType := innerKeys.head?
  let fieldValue ← hIndexE h fv fieldSearchType
  let fieldType := hGetTypeof h fieldValue (.prim .hundefined)
  if isTypeOf == "object" then do
    let n ← convertSearchOperatorStore recurse fieldSearchType fieldType
      fieldValue h
    .ok (hSetKey n.1 tRef field n.2)
  else if isTypeOf == "array" then do
    let n ← convertSearchOperatorStore recurse (some field) "array" fv h
    .ok (hObjAssign n.1 tRef n.2)
  else .ok (hSetKey h tRef field fv)

/-- The driver's `fields.forEach` loop, on the heap. -/
def compileFieldsStore
    (recurse : SHeap → HVal → Except String (SHeap × HVal))
    (filter : HVal) (tRef : Nat) :
    List String → SHeap → Except String SHeap
  | [], h => .ok h
  | field :: rest, h => do
    let fv ← hIndexE h filter (some field)
    let h2 ← compileFieldValueStore recurse tRef field fv h
    compileFieldsStore recurse filter tRef rest h2

/-- `toMongooseFilterExpression` on the heap: the `filter = {}` default
allocates a fresh empty object for an `undefined` argument, `Object.keys`
enumerates the fields, `transferedFilter = {}` allocates the output object,
the loop fills it, and its reference is returned. -/
def toMongooseFilterExpressionStore :
    Nat → SHeap → HVal → Except String (SHeap × HVal)
  | 0, _, _ => .error "RangeError: Maximum call stack size exceeded"
  | fuel + 1, h0, filter0 =>
    let d : SHeap × HVal :=
      if filter0 = .prim .hundefined then
        let a := hAlloc h0 (.hobj [])
        (a.1, .ref a.2)
      else (h0, filter0)
    match hObjectKeysE d.1 d.2 with
    | .error e => .error e
    | .ok fields =>
      let t := hAlloc d.1 (.hobj [])
      (compileFieldsStore
        (fun hh vv => toMongooseFilterExpressionStore fuel hh vv)
        d.2 t.2 fields t.1).map
        (fun h3 => (h3, .ref t.2))

/-- The frame contract of a recursive compile: the heap only grows, and
every pre-existing slot is untouched. -/
def RecurseFrame (recurse : SHeap → HVal → Except String (SHeap × HVal)) :
    Prop :=
  ∀ h v h' out, recurse h v = .ok (h', out) →
    h.length ≤ h'.length ∧ ∀ r, r < h.length → h'.get? r = h.get? r

/-! ## Claims -/

/-- A freshly allocated object is reference-distinct from every reference
that was already valid in the heap. -/
theorem refStrictEq_alloc_false (h : ObjHeap) (v : JSVal) (r : Nat)
    (hr : r < h.length) : refStrictEq r (allocObj h v).2 = false := by
  simp only [allocObj, refStrictEq, beq_eq_false_iff_ne, ne_eq]
  omega


/-- C1 (code_bug evidence).  The Type Classifier, as invoked by the driver
(one argument, `fieldValue = undefined`), classifies the whole number `2`
and the fractional number `2.5` alike as `number` — never `int`/`float` —
because the `fieldType === 'number'` guard compares the value itself, not
its kind, against the string `'number'`; for the same reason the plainly
non-numeric string operand `"number"` is classified `float` instead of its
intrinsic kind `string`. -/
theorem c1_type_classifier_numeric_refinement_dead :
    getTypeof (.vnum 2) .vundefined = "number" ∧
    getTypeof (.vnum (5 / 2)) .vundefined = "number" ∧
    getTypeof (.vstr "number") .vundefined = "float" ∧
    getTypeof (.vstr "number") .vundefined ≠ kindOf (.vstr "number") := by
  refine ⟨rfl, rfl, rfl, ?_⟩
  intro h
  simp [getTypeof, kindOf, jsStrictEqString, jsMod1EqZero, jsMod1NeZero,
    jsToNumber] at h

/-- C2 (counterexample).  A bare array literal under an ordinary field name
is NOT assigned unchanged under that name: `{tags: [1, 2]}` compiles to
`{"0": 1, "1": 2}`, the array's index properties merged at top level by
`Object.assign`. -/
theorem c2_array_literal_not_passed_through :
    toMongooseFilterExpression 2 (.vobj [("tags", .varr [.vnum 1, .vnum 2])]) =
      .ok (.vobj [("0", .vnum 1), ("1", .vnum 2)]) ∧
    JSVal.vobj [("0", .vnum 1), ("1", .vnum 2)] ≠
      .vobj [("tags", .varr [.vnum 1, .vnum 2])] := by
  refine ⟨rfl, ?_⟩
  intro h
  simp at h

/-- C3 (code_bug evidence).  In the heap model of `list`'s count selection,
a structurally empty compiled filter already allocated in the heap still
takes the filtered count (`countDocuments`): `datafilter === {}` compares
references against a fresh literal and is false. -/
theorem c3_empty_compiled_filter_still_counts_filtered :
    (chooseCountMethod [JSVal.vobj []] 0).1 = CountMethod.filtered ∧
    [JSVal.vobj []].getD 0 .vundefined = .vobj [] := by
  exact ⟨rfl, rfl⟩

/-- C6 (code_bug evidence).  `contains` with the string operand `"number"`
does not produce a case-insensitive regex node: the operand is misclassified
`float` (see C1) and passes through unchanged. -/
theorem c6_contains_fails_on_the_string_number :
    toMongooseFilterExpression 2
      (.vobj [("firstname", .vobj [("contains", .vstr "number")])]) =
      .ok (.vobj [("firstname", .vstr "number")]) ∧
    JSVal.vobj [("firstname", .vstr "number")] ≠
      .vobj [("firstname",
        .vobj [("$regex", .vstr "number"), ("$options", .vstr "i")])] := by
  refine ⟨rfl, ?_⟩
  intro h
  simp at h

/-- C4 (counterexample).  `exists` with the non-numeric operand `"abc"`
does not resolve to the default `0`: the integer coercion yields `NaN`,
which is emitted as `{$exists: NaN}`. -/
theorem c4_exists_non_numeric_gives_nan_not_zero :
    toMongooseFilterExpression 1
      (.vobj [("f", .vobj [("exists", .vstr "abc")])]) =
      .ok (.vobj [("f", .vobj [("$exists", .vnan)])]) ∧
    JSVal.vnan ≠ .vnum 0 := by
  refine ⟨rfl, ?_⟩
  intro h
  simp at h

/-- C4 (amended).  `exists` with string `"1"` yields `{$exists: 1}` and with
`"0"` yields `{$exists: 0}`; for EVERY operand the coercion never throws:
the compile succeeds with `{$exists: parseInt(operand)}`, and `parseInt`
always produces either an integer or `NaN` (falsy) — it never raises. -/
theorem c4_exists_coercion_total (fuel : Nat) (v : JSVal) :
    toMongooseFilterExpression (fuel + 1)
      (.vobj [("f", .vobj [("exists", v)])]) =
      .ok (.vobj [("f", .vobj [("$exists", parseIntJs v)])]) ∧
    toMongooseFilterExpression 1 (.vobj [("f", .vobj [("exists", .vstr "1")])]) =
      .ok (.vobj [("f", .vobj [("$exists", .vnum 1)])]) ∧
    toMongooseFilterExpression 1 (.vobj [("f", .vobj [("exists", .vstr "0")])]) =
      .ok (.vobj [("f", .vobj [("$exists", .vnum 0)])]) ∧
    (∀ w : JSVal, parseIntJs w = .vnan ∨ ∃ n : Int, parseIntJs w = .vnum (n : ℚ)) := by
  refine ⟨rfl, rfl, rfl, ?_⟩
  intro w
  unfold parseIntJs
  cases parseIntString (jsToString w) with
  | none => exact Or.inl rfl
  | some n => exact Or.inr ⟨n, rfl⟩

/-- Reduct of the driver on a single `or` field: everything except the
recursive compile of the branch list evaluates away, leaving the
`Object.assign`-merge of the synthesized `$or` node. -/
theorem toMFE_or_reduct (fuel : Nat) (xs : List JSVal) :
    toMongooseFilterExpression (fuel + 1) (.vobj [("or", .varr xs)]) =
      Except.bind (Except.bind (Except.bind (Except.bind
        (xs.mapM (fun v => toMongooseFilterExpression fuel v))
        (fun compiled => Except.ok (JSVal.vobj [("$or", .varr compiled)])))
        (fun node => Except.pure (objAssign [] node)))
        (fun s => Except.pure s))
        (fun t => Except.pure (JSVal.vobj t)) := rfl

/-- Reduct of the driver on a single `and` field. -/
theorem toMFE_and_reduct (fuel : Nat) (xs : List JSVal) :
    toMongooseFilterExpression (fuel + 1) (.vobj [("and", .varr xs)]) =
      Except.bind (Except.bind (Except.bind (Except.bind
        (xs.mapM (fun v => toMongooseFilterExpression fuel v))
        (fun compiled => Except.ok (JSVal.vobj [("$and", .varr compiled)])))
        (fun node => Except.pure (objAssign [] node)))
        (fun s => Except.pure s))
        (fun t => Except.pure (JSVal.vobj t)) := rfl

/-- C5 (confirmed).  A field named `and`/`or` holding an array of
sub-filters compiles each element in order through the full driver and
merges the single synthesized `$and`/`$or` key, mapped to the ordered
compiled sequence, into the top level of the output. -/
theorem c5_logical_combinator (nm : String) (xs ys : List JSVal) (fuel : Nat)
    (hnm : nm = "and" ∨ nm = "or")
    (hxs : xs.mapM (fun v => toMongooseFilterExpression fuel v) = .ok ys) :
    toMongooseFilterExpression (fuel + 1) (.vobj [(nm, .varr xs)]) =
      .ok (.vobj [("$" ++ nm, .varr ys)]) := by
  rcases hnm with h | h <;> subst h
  · rw [toMFE_and_reduct, hxs]; rfl
  · rw [toMFE_or_reduct, hxs]; rfl

/-- C5 witness: the claim's own example,
`compile({or: [{a: {ne: 1}}, {b: {eq: 2}}]}) = {$or: [{a: {$ne: 1}}, {b: 2}]}`. -/
theorem c5_logical_combinator_witness :
    toMongooseFilterExpression 2
      (.vobj [("or", .varr
        [.vobj [("a", .vobj [("ne", .vnum 1)])],
         .vobj [("b", .vobj [("eq", .vnum 2)])]])]) =
      .ok (.vobj [("$or", .varr
        [.vobj [("a", .vobj [("$ne", .vnum 1)])],
         .vobj [("b", .vnum 2)]])]) :=
  c5_logical_combinator "or"
    [.vobj [("a", .vobj [("ne", .vnum 1)])],
     .vobj [("b", .vobj [("eq", .vnum 2)])]]
    [.vobj [("a", .vobj [("$ne", .vnum 1)])],
     .vobj [("b", .vnum 2)]] 1 (Or.inr rfl) rfl

/-- Reading a field of an object literal reduces the step to
`compileFieldValue` of the looked-up value. -/
theorem compileFieldStep_vobj (recurse : JSVal → Except String JSVal)
    (L : List (String × JSVal)) (acc : List (String × JSVal)) (k : String) :
    compileFieldStep recurse (.vobj L) acc k =
      compileFieldValue recurse acc k ((L.lookup k).getD .vundefined) := rfl

/-- A string, number, `NaN` or boolean field value is transferred unchanged
by the per-field step (the driver's default branch). -/
theorem compileFieldValue_literal (recurse : JSVal → Except String JSVal)
    (acc : List (String × JSVal)) (k : String) (v : JSVal)
    (hlit : kindOf v = "string" ∨ kindOf v = "number" ∨ kindOf v = "boolean") :
    compileFieldValue recurse acc k v = .ok (setKey acc k v) := by
  cases v <;> first
    | rfl
    | simp [kindOf] at hlit

/-- Writing a key absent from the accumulator appends it. -/
theorem setKey_new (acc : List (String × JSVal)) (k : String) (v : JSVal)
    (h : ∀ p ∈ acc, p.1 ≠ k) : setKey acc k v = acc ++ [(k, v)] := by
  unfold setKey
  rw [if_neg]
  intro hc
  rw [List.any_eq_true] at hc
  obtain ⟨p, hp, hpk⟩ := hc
  exact h p hp (by simpa using hpk)

/-- A looked-up binding is a member of the association list. -/
theorem lookup_mem_assoc (L : List (String × JSVal)) (k : String) (v : JSVal)
    (h : L.lookup k = some v) : (k, v) ∈ L := by
  induction L with
  | nil => simp [List.lookup] at h
  | cons p rest ih =>
    obtain ⟨a, b⟩ := p
    rw [List.lookup] at h
    by_cases hk : k == a
    · rw [hk] at h
      simp only [Option.some.injEq] at h
      subst h
      have : k = a := by simpa using hk
      subst this
      exact List.mem_cons_self _ _
    · rw [Bool.not_eq_true] at hk
      rw [hk] at h
      exact List.mem_cons_of_mem _ (ih h)

/-- Every key of an association list has a lookup result. -/
theorem lookup_isSome_of_mem_keys (L : List (String × JSVal)) (k : String)
    (h : k ∈ L.map Prod.fst) : (L.lookup k).isSome := by
  induction L with
  | nil => simp at h
  | cons p rest ih =>
    obtain ⟨a, b⟩ := p
    rw [List.lookup]
    by_cases hk : k == a
    · rw [hk]; rfl
    · rw [Bool.not_eq_true] at hk
      rw [hk]
      apply ih
      simp only [List.map_cons, List.mem_cons] at h
      rcases h with h | h
      · exact absurd (by simpa using h) (by simpa using hk)
      · exact h

/-- Folding the per-field step over keys that all look up to literal
(string/number/boolean) values appends each binding in order. -/
theorem foldlM_compileFieldStep_literals (recurse : JSVal → Except String JSVal)
    (L : List (String × JSVal)) :
    ∀ (keys : List String) (acc : List (String × JSVal)),
    (∀ k ∈ keys, ∃ v, L.lookup k = some v ∧
      (kindOf v = "string" ∨ kindOf v = "number" ∨ kindOf v = "boolean")) →
    (∀ k ∈ keys, ∀ p ∈ acc, p.1 ≠ k) →
    keys.Nodup →
    List.foldlM (compileFieldStep recurse (.vobj L)) acc keys =
      .ok (acc ++ keys.map (fun k => (k, (L.lookup k).getD .vundefined))) := by
  intro keys
  induction keys with
  | nil =>
    intro acc _ _ _
    simp only [List.map_nil, List.append_nil]
    rfl
  | cons k rest ih =>
    intro acc hlit hacc hnodup
    obtain ⟨v, hv, hvk⟩ := hlit k (List.mem_cons_self _ _)
    rw [List.foldlM_cons, compileFieldStep_vobj, hv]
    simp only [Option.getD_some]
    rw [compileFieldValue_literal recurse acc k v hvk]
    rw [setKey_new acc k v (hacc k (List.mem_cons_self _ _))]
    have hbind : ∀ (a : List (String × JSVal))
        (f : List (String × JSVal) → Except String (List (String × JSVal))),
        (Except.ok a : Except String (List (String × JSVal))) >>= f = f a :=
      fun _ _ => rfl
    rw [hbind]
    rw [List.nodup_cons] at hnodup
    rw [ih (acc ++ [(k, v)])
      (fun k' hk' => hlit k' (List.mem_cons_of_mem _ hk'))
      (fun k' hk' p hp => by
        rcases List.mem_append.mp hp with h | h
        · exact hacc k' (List.mem_cons_of_mem _ hk') p h
        · have : p = (k, v) := by simpa using h
          subst this
          intro he
          exact hnodup.1 (by rw [show k = k' from he]; exact hk'))
      hnodup.2]
    rw [List.map_cons, hv]
    simp [Option.getD_some, List.append_assoc]

/-- With pairwise distinct keys, rebuilding an association list from its
keys by lookup reproduces it. -/
theorem map_keys_lookup_self (L : List (String × JSVal))
    (h : (L.map Prod.fst).Nodup) :
    (L.map Prod.fst).map (fun k => (k, (L.lookup k).getD .vundefined)) = L := by
  induction L with
  | nil => rfl
  | cons p rest ih =>
    obtain ⟨a, b⟩ := p
    simp only [List.map_cons] at h ⊢
    rw [List.nodup_cons] at h
    congr 1
    · simp [List.lookup]
    · rw [List.map_congr_left (fun k hk => ?_), ih h.2]
      have hka : ¬(k == a) = true := by
        intro he
        exact h.1 (by rw [show a = k by simpa using (beq_iff_eq.mp he).symm]; exact hk)
      rw [List.lookup]
      rw [Bool.not_eq_true] at hka
      rw [hka]

/-- Reduct of the driver on an object filter: the fold of the per-field
step over the object's keys. -/
theorem toMFE_vobj_reduct (fuel : Nat) (L : List (String × JSVal)) :
    toMongooseFilterExpression (fuel + 1) (.vobj L) =
      Except.bind
        (List.foldlM
          (compileFieldStep (fun v => toMongooseFilterExpression fuel v)
            (.vobj L))
          [] (L.map Prod.fst))
        (fun t => Except.pure (JSVal.vobj t)) := rfl

/-- C2 (amended).  A filter whose fields (with pairwise distinct names) all
hold bare string, number or boolean literals compiles to itself: each such
value is assigned unchanged under its original field name.  (Bare ARRAY
literals are excluded: see the counterexample, they are spread into index
keys; and a `null`/`undefined` field value makes the compile throw.) -/
theorem c2_literal_fields_pass_through (fields : List (String × JSVal))
    (fuel : Nat)
    (hlit : ∀ p ∈ fields,
      kindOf p.2 = "string" ∨ kindOf p.2 = "number" ∨ kindOf p.2 = "boolean")
    (hnodup : (fields.map Prod.fst).Nodup) :
    toMongooseFilterExpression (fuel + 1) (.vobj fields) =
      .ok (.vobj fields) := by
  rw [toMFE_vobj_reduct]
  rw [foldlM_compileFieldStep_literals
    (fun v => toMongooseFilterExpression fuel v) fields (fields.map Prod.fst)
    []
    (fun k hk => by
      have hsome := lookup_isSome_of_mem_keys fields k hk
      obtain ⟨v, hv⟩ := Option.isSome_iff_exists.mp hsome
      exact ⟨v, hv, hlit (k, v) (lookup_mem_assoc fields k v hv)⟩)
    (fun k _ p hp => absurd hp (List.not_mem_nil p))
    hnodup]
  rw [List.nil_append, map_keys_lookup_self fields hnodup]
  rfl

/-- C2 witness: a three-field all-literal filter compiles to itself. -/
theorem c2_literal_fields_pass_through_witness :
    toMongooseFilterExpression 1
      (.vobj [("a", .vstr "x"), ("b", .vnum 5), ("c", .vbool true)]) =
      .ok (.vobj [("a", .vstr "x"), ("b", .vnum 5), ("c", .vbool true)]) :=
  c2_literal_fields_pass_through
    [("a", .vstr "x"), ("b", .vnum 5), ("c", .vbool true)] 0
    (by simp [kindOf])
    (by simp)

/-- A `try` whose `catch` returns the error always fulfils: matching any
awaited outcome into `fulfilled` either way. -/
theorem tryCatchReturn_isFulfilled (body : Except JSVal JSVal) :
    (POutcome.isFulfilled
      (match body with
       | .ok res => POutcome.fulfilled res
       | .error err => POutcome.fulfilled err)) = true := by
  cases body <;> rfl

/-- C10 (confirmed).  `getById` fulfils with `null` whenever the underlying
lookup throws (for any thrown value, in particular an ObjectId cast error),
exactly as it does for a successful lookup that found nothing — the two are
indistinguishable; `delete` and `update` inherit this and fulfil with
`null` for a malformed id. -/
theorem c10_malformed_id_masked_as_null :
    (∀ e : JSVal, getByIdMethod (.error e) = .fulfilled .vnull) ∧
    (∀ e : JSVal, getByIdMethod (.error e) = getByIdMethod (.ok .vnull)) ∧
    (∀ e : JSVal, ∀ dbDeleteOne : Except JSVal JSVal,
      deleteMethod (.error e) dbDeleteOne = .fulfilled .vnull) ∧
    (∀ e documentUpdate : JSVal, ∀ dbSave : JSVal → Except JSVal JSVal,
      updateMethod (.error e) documentUpdate dbSave = .fulfilled .vnull) :=
  ⟨fun _ => rfl, fun _ => rfl, fun _ _ => rfl, fun _ _ _ => rfl⟩


/-- A caught count error or a pagination fulfilment, for any awaited
aggregate/find result. -/
theorem tryCatchPagination_isFulfilled (body : Except JSVal JSVal)
    (page limit : ℚ) (tc : JSVal) :
    (POutcome.isFulfilled (match body with
      | .error err => POutcome.fulfilled err
      | .ok node => POutcome.fulfilled (paginationResult tc page limit node)))
      = true := by
  cases body <;> rfl

/-- `all` fulfils whenever the pre-`try` compile succeeds. -/
theorem allMethod_ok_isFulfilled (fuel : Nat) (filter compiled : JSVal)
    (dbFind : JSVal → Except JSVal JSVal)
    (h : toMongooseFilterExpression fuel filter = .ok compiled) :
    (allMethod fuel filter dbFind).isFulfilled = true := by
  unfold allMethod
  rw [h]
  dsimp only
  cases dbFind compiled <;> rfl

/-- `list` fulfils whenever the pre-`try` compile succeeds. -/
theorem listMethod_ok_isFulfilled (fuel : Nat) (filter compiled : JSVal)
    (page limit : ℚ) (dbE dbC : Except JSVal JSVal)
    (dbFind : JSVal → Except JSVal JSVal)
    (h : toMongooseFilterExpression fuel filter = .ok compiled) :
    (listMethod fuel filter page limit dbE dbC dbFind).isFulfilled = true := by
  unfold listMethod
  rw [h]
  dsimp only [strictEqFreshEmptyObject]
  cases dbC with
  | error err => rfl
  | ok tc => cases dbFind compiled <;> rfl

/-- `listAggregation` fulfils whenever the pre-`try` compile succeeds. -/
theorem listAggregationMethod_ok_isFulfilled (fuel : Nat)
    (filter compiled : JSVal) (page limit : ℚ) (sort : JSVal)
    (agg : List JSVal) (dbE dbC : Except JSVal JSVal)
    (dbA : List JSVal → Except JSVal JSVal)
    (h : toMongooseFilterExpression fuel filter = .ok compiled) :
    (listAggregationMethod fuel filter page limit sort agg dbE dbC
      dbA).isFulfilled = true := by
  unfold listAggregationMethod
  rw [h]
  dsimp only [strictEqFreshEmptyObject]
  rw [if_neg (show ¬(false = true) by simp)]
  cases dbC with
  | error err => rfl
  | ok tc => exact tryCatchPagination_isFulfilled _ page limit tc

/-- `add` fulfils whenever the pre-`try` model construction succeeds. -/
theorem addMethod_ok_isFulfilled (doc : JSVal)
    (dbSave : JSVal → Except JSVal JSVal) :
    (addMethod (.ok doc) dbSave).isFulfilled = true := by
  unfold addMethod
  dsimp only
  cases dbSave doc <;> rfl

/-- C8 (counterexample).  `all({filter: {a: null}})` REJECTS: the filter is
compiled before the `try`, and the compiler throws a `TypeError` on the
null-valued field, so the promise does not fulfil with an error value. -/
theorem c8_all_rejects_on_null_filter_field :
    allMethod 1 (.vobj [("a", .vnull)]) (fun _ => .ok .vnull) =
      .rejected
        (.vstr "TypeError: Cannot convert undefined or null to object") := rfl

/-- C8 (amended).  Every awaited database failure inside a method's `try` is
caught and returned as the fulfilled value, and the methods whose whole
body sits inside `try` (findOne, find, deleteMany, getById, delete, update,
deleteManyById, updateMany, findOneAndUpdate) never reject; but `all`,
`list` and `listAggregation` compile the filter before the `try` and reject
when the compiler throws, and `add` constructs the model instance before
the `try` and rejects when the constructor throws. -/
theorem c8_methods_catch_inside_try :
    (∀ r : Except JSVal JSVal, (findOneMethod r).isFulfilled = true) ∧
    (∀ e : JSVal, findOneMethod (.error e) = .fulfilled e) ∧
    (∀ r : Except JSVal JSVal, (findMethod r).isFulfilled = true) ∧
    (∀ e : JSVal, findMethod (.error e) = .fulfilled e) ∧
    (∀ r : Except JSVal JSVal, (deleteManyMethod r).isFulfilled = true) ∧
    (∀ e : JSVal, deleteManyMethod (.error e) = .fulfilled e) ∧
    (∀ r : Except JSVal JSVal, (getByIdMethod r).isFulfilled = true) ∧
    (∀ r db : Except JSVal JSVal, (deleteMethod r db).isFulfilled = true) ∧
    (∀ r : Except JSVal JSVal, ∀ du : JSVal,
      ∀ dbSave : JSVal → Except JSVal JSVal,
      (updateMethod r du dbSave).isFulfilled = true) ∧
    (∀ id : JSVal, ∀ oc : JSVal → Except JSVal JSVal,
      ∀ dm : List JSVal → Except JSVal JSVal,
      (deleteManyByIdMethod id oc dm).isFulfilled = true) ∧
    (∀ id du : JSVal, ∀ oc : JSVal → Except JSVal JSVal,
      ∀ um : List JSVal → JSVal → Except JSVal JSVal,
      (updateManyMethod id du oc um).isFulfilled = true) ∧
    (∀ oid : Except JSVal JSVal, ∀ fu : JSVal → Except JSVal JSVal,
      (findOneAndUpdateMethod oid fu).isFulfilled = true) ∧
    (∀ fuel : Nat, ∀ filter compiled : JSVal,
      ∀ dbFind : JSVal → Except JSVal JSVal,
      toMongooseFilterExpression fuel filter = .ok compiled →
      (allMethod fuel filter dbFind).isFulfilled = true) ∧
    (∀ fuel : Nat, ∀ filter : JSVal, ∀ msg : String,
      ∀ dbFind : JSVal → Except JSVal JSVal,
      toMongooseFilterExpression fuel filter = .error msg →
      allMethod fuel filter dbFind = .rejected (.vstr msg)) ∧
    (∀ fuel : Nat, ∀ filter compiled : JSVal, ∀ page limit : ℚ,
      ∀ dbE dbC : Except JSVal JSVal, ∀ dbFind : JSVal → Except JSVal JSVal,
      toMongooseFilterExpression fuel filter = .ok compiled →
      (listMethod fuel filter page limit dbE dbC dbFind).isFulfilled = true) ∧
    (∀ fuel : Nat, ∀ filter : JSVal, ∀ msg : String, ∀ page limit : ℚ,
      ∀ dbE dbC : Except JSVal JSVal, ∀ dbFind : JSVal → Except JSVal JSVal,
      toMongooseFilterExpression fuel filter = .error msg →
      listMethod fuel filter page limit dbE dbC dbFind =
        .rejected (.vstr msg)) ∧
    (∀ fuel : Nat, ∀ filter compiled : JSVal, ∀ page limit : ℚ,
      ∀ sort : JSVal, ∀ agg : List JSVal, ∀ dbE dbC : Except JSVal JSVal,
      ∀ dbA : List JSVal → Except JSVal JSVal,
      toMongooseFilterExpression fuel filter = .ok compiled →
      (listAggregationMethod fuel filter page limit sort agg dbE dbC
        dbA).isFulfilled = true) ∧
    (∀ fuel : Nat, ∀ filter : JSVal, ∀ msg : String, ∀ page limit : ℚ,
      ∀ sort : JSVal, ∀ agg : List JSVal, ∀ dbE dbC : Except JSVal JSVal,
      ∀ dbA : List JSVal → Except JSVal JSVal,
      toMongooseFilterExpression fuel filter = .error msg →
      listAggregationMethod fuel filter page limit sort agg dbE dbC dbA =
        .rejected (.vstr msg)) ∧
    (∀ doc : JSVal, ∀ dbSave : JSVal → Except JSVal JSVal,
      (addMethod (.ok doc) dbSave).isFulfilled = true) ∧
    (∀ e : JSVal, ∀ dbSave : JSVal → Except JSVal JSVal,
      addMethod (.error e) dbSave = .rejected e) := by
  refine ⟨fun r => by cases r <;> rfl,
    fun _ => rfl,
    fun r => by cases r <;> rfl,
    fun _ => rfl,
    fun r => by cases r <;> rfl,
    fun _ => rfl,
    fun r => by cases r <;> rfl,
    fun r db => ?_,
    fun r du dbSave => ?_,
    fun id oc dm => by unfold deleteManyByIdMethod
                       exact tryCatchReturn_isFulfilled _,
    fun id du oc um => by unfold updateManyMethod
                          exact tryCatchReturn_isFulfilled _,
    fun oid fu => by unfold findOneAndUpdateMethod
                     exact tryCatchReturn_isFulfilled _,
    fun fuel filter compiled dbFind h =>
      allMethod_ok_isFulfilled fuel filter compiled dbFind h,
    fun fuel filter msg dbFind h => by unfold allMethod; rw [h],
    fun fuel filter compiled page limit dbE dbC dbFind h =>
      listMethod_ok_isFulfilled fuel filter compiled page limit dbE dbC
        dbFind h,
    fun fuel filter msg page limit dbE dbC dbFind h => by
      unfold listMethod; rw [h],
    fun fuel filter compiled page limit sort agg dbE dbC dbA h =>
      listAggregationMethod_ok_isFulfilled fuel filter compiled page limit
        sort agg dbE dbC dbA h,
    fun fuel filter msg page limit sort agg dbE dbC dbA h => by
      unfold listAggregationMethod; rw [h],
    fun doc dbSave => addMethod_ok_isFulfilled doc dbSave,
    fun e dbSave => rfl⟩
  · unfold deleteMethod getByIdMethod
    cases r with
    | error e => rfl
    | ok v =>
      simp only []
      split
      · cases db <;> rfl
      · rfl
  · unfold updateMethod getByIdMethod
    cases r with
    | error e => rfl
    | ok v =>
      simp only []
      split
      · split <;> rfl
      · rfl

/-- C8 witness: a successful `all` fulfils, via the amended theorem at a
concrete compile. -/
theorem c8_methods_catch_inside_try_witness :
    (allMethod 1 (.vobj []) (fun _ => .ok (.varr []))).isFulfilled = true :=
  c8_methods_catch_inside_try.2.2.2.2.2.2.2.2.2.2.2.2.1 1 (.vobj [])
    (.vobj []) (fun _ => .ok (.varr [])) rfl

/-- A key absent from the key list looks up to nothing. -/
theorem lookup_none_of_not_mem_keys (L : List (String × JSVal)) (k : String)
    (h : k ∉ L.map Prod.fst) : L.lookup k = none := by
  induction L with
  | nil => rfl
  | cons p rest ih =>
    obtain ⟨a, b⟩ := p
    simp only [List.map_cons, List.mem_cons] at h
    push_neg at h
    rw [List.lookup]
    have hka : (k == a) = false := by
      rw [beq_eq_false_iff_ne]
      exact h.1
    rw [hka]
    exact ih h.2

/-- In an association list with pairwise distinct keys, a key bound to a
falsy value looks up to nothing once the falsy-valued pairs are filtered
out. -/
theorem lookup_filter_falsy (du : List (String × JSVal)) (k : String)
    (v : JSVal) (hkv : (k, v) ∈ du) (hv : jsTruthy v = false)
    (hnodup : (du.map Prod.fst).Nodup) :
    (du.filter (fun p => jsTruthy p.2)).lookup k = none := by
  induction du with
  | nil => simp at hkv
  | cons p rest ih =>
    obtain ⟨a, b⟩ := p
    simp only [List.map_cons, List.nodup_cons] at hnodup
    rcases List.mem_cons.mp hkv with heq | hmem
    · injection heq with hk hb
      subst hk
      subst hb
      rw [List.filter_cons, if_neg (by simp [hv])]
      apply lookup_none_of_not_mem_keys
      intro hkmem
      rcases List.mem_map.mp hkmem with ⟨q, hq, hqk⟩
      exact hnodup.1
        (hqk ▸ List.mem_map.mpr ⟨q, List.mem_of_mem_filter hq, rfl⟩)
    · have hkrest : k ∈ rest.map Prod.fst :=
        List.mem_map.mpr ⟨(k, v), hmem, rfl⟩
      have hka : (k == a) = false := by
        rw [beq_eq_false_iff_ne]
        intro he
        exact hnodup.1 (he ▸ hkrest)
      rw [List.filter_cons]
      by_cases hb : jsTruthy b = true
      · rw [if_pos (by simpa using hb)]
        rw [List.lookup, hka]
        exact ih hmem hnodup.2
      · rw [if_neg (by simpa using hb)]
        exact ih hmem hnodup.2

/-- C9 (confirmed).  `cleanDocumentUpdate` deletes, in place, every key of
its argument whose value is falsy — `false`, `0`, the empty string, `null`
and `undefined` included — and returns the very same object (same heap
reference, other heap slots untouched); consequently the `$set` document
that `updateMany` builds from it lacks every field set to `false`, `0` or
`""` — such updates are silently dropped. -/
theorem c9_clean_document_update_drops_falsy (h : ObjHeap) (r : Nat)
    (fields du : List (String × JSVal)) (k : String) (v : JSVal)
    (hr : h.get? r = some (.vobj fields))
    (hkv : (k, v) ∈ du)
    (hfalsy : v = .vbool false ∨ v = .vnum 0 ∨ v = .vstr "")
    (hnodup : (du.map Prod.fst).Nodup) :
    (cleanDocumentUpdateStore h r).2 = r ∧
    (cleanDocumentUpdateStore h r).1.get? r =
      some (.vobj (fields.filter (fun p => jsTruthy p.2))) ∧
    (∀ s : Nat, s ≠ r → (cleanDocumentUpdateStore h r).1.get? s = h.get? s) ∧
    jsTruthy (.vbool false) = false ∧ jsTruthy (.vnum 0) = false ∧
    jsTruthy (.vstr "") = false ∧ jsTruthy .vnull = false ∧
    jsTruthy .vundefined = false ∧
    cleanDocumentUpdateVal (.vobj du) =
      .ok (.vobj (du.filter (fun p => jsTruthy p.2))) ∧
    (du.filter (fun p => jsTruthy p.2)).lookup k = none := by
  have hlen : r < h.length := by
    by_contra hge
    rw [List.get?_eq_none.mpr (Nat.le_of_not_lt hge)] at hr
    exact Option.noConfusion hr
  have hgetD : h.getD r .vundefined = .vobj fields := by
    rw [List.getD_eq_get?, hr]
    rfl
  refine ⟨rfl, ?_, ?_, rfl, by decide, rfl, rfl, rfl, rfl, ?_⟩
  · unfold cleanDocumentUpdateStore
    rw [hgetD]
    exact List.get?_set_eq_of_lt _ hlen
  · intro s hs
    unfold cleanDocumentUpdateStore
    exact List.get?_set_ne _ h (fun he => hs he.symm)
  · rcases hfalsy with hf | hf | hf <;> subst hf
    · exact lookup_filter_falsy du k _ hkv rfl hnodup
    · exact lookup_filter_falsy du k _ hkv (by decide) hnodup
    · exact lookup_filter_falsy du k _ hkv rfl hnodup

/-- C9 witness: a concrete heap object loses its `false`-valued key in
place, and a concrete `updateMany` payload drops its `false`-valued field
from the `$set` document. -/
theorem c9_clean_document_update_drops_falsy_witness :
    (cleanDocumentUpdateStore
        [JSVal.vobj [("a", .vbool false), ("b", .vstr "x")]] 0).1.get? 0 =
      some (.vobj [("b", .vstr "x")]) ∧
    ([("f", JSVal.vbool false)].filter
      (fun p => jsTruthy p.2)).lookup "f" = none := by
  have h := c9_clean_document_update_drops_falsy
    [JSVal.vobj [("a", .vbool false), ("b", .vstr "x")]] 0
    [("a", .vbool false), ("b", .vstr "x")] [("f", .vbool false)] "f"
    (.vbool false) rfl (by simp) (Or.inl rfl) (by simp)
  refine ⟨?_, h.2.2.2.2.2.2.2.2.2⟩
  rw [h.2.1]
  rfl

theorem hAlloc_length (h : SHeap) (o : HObj) :
    (hAlloc h o).1.length = h.length + 1 := by
  simp [hAlloc]

theorem hAlloc_get? (h : SHeap) (o : HObj) (r : Nat) (hr : r < h.length) :
    (hAlloc h o).1.get? r = h.get? r := by
  unfold hAlloc
  exact List.get?_append hr

theorem hSetKey_length (h : SHeap) (r0 : Nat) (k : String) (v : HVal) :
    (hSetKey h r0 k v).length = h.length := by
  simp [hSetKey]

theorem hSetKey_get?_ne (h : SHeap) (r0 : Nat) (k : String) (v : HVal)
    (r : Nat) (hr : r ≠ r0) : (hSetKey h r0 k v).get? r = h.get? r := by
  unfold hSetKey
  exact List.get?_set_ne _ _ (fun he => hr he.symm)

theorem hPush_length (h : SHeap) (r0 : Nat) (v : HVal) :
    (hPush h r0 v).length = h.length := by
  simp [hPush]

theorem hPush_get?_ne (h : SHeap) (r0 : Nat) (v : HVal) (r : Nat)
    (hr : r ≠ r0) : (hPush h r0 v).get? r = h.get? r := by
  unfold hPush
  exact List.get?_set_ne _ _ (fun he => hr he.symm)

/-- A fold of key writes into a fixed slot changes no other slot and keeps
the heap length. -/
theorem foldl_hSetKey_frame {α : Type} (key : α → String) (val : α → HVal)
    (tRef : Nat) :
    ∀ (l : List α) (h : SHeap),
      (l.foldl (fun hh a => hSetKey hh tRef (key a) (val a)) h).length =
        h.length ∧
      ∀ r, r ≠ tRef →
        (l.foldl (fun hh a => hSetKey hh tRef (key a) (val a)) h).get? r =
          h.get? r := by
  intro l
  induction l with
  | nil => exact fun h => ⟨rfl, fun _ _ => rfl⟩
  | cons a rest ih =>
    intro h
    constructor
    · rw [List.foldl_cons, (ih (hSetKey h tRef (key a) (val a))).1,
        hSetKey_length]
    · intro r hr
      rw [List.foldl_cons, (ih (hSetKey h tRef (key a) (val a))).2 r hr,
        hSetKey_get?_ne _ _ _ _ _ hr]

theorem hObjAssign_length (h : SHeap) (tRef : Nat) (src : HVal) :
    (hObjAssign h tRef src).length = h.length := by
  rcases src with p | s
  · rcases p with s | q | _ | b | _ | _ <;>
      first
        | rfl
        | exact (foldl_hSetKey_frame (α := Nat × Char)
            (fun c => toString c.1)
            (fun c => HVal.prim (.hstr (String.mk [c.2]))) tRef
            s.toList.enum h).1
  · simp only [hObjAssign]
    rcases hd : h.getD s (.hobj []) with fs | xs
    · exact (foldl_hSetKey_frame Prod.fst Prod.snd tRef fs h).1
    · exact (foldl_hSetKey_frame (α := Nat × HVal) (fun c => toString c.1)
        Prod.snd tRef xs.enum h).1

theorem hObjAssign_get?_ne (h : SHeap) (tRef : Nat) (src : HVal) (r : Nat)
    (hr : r ≠ tRef) : (hObjAssign h tRef src).get? r = h.get? r := by
  rcases src with p | s
  · rcases p with s | q | _ | b | _ | _ <;>
      first
        | rfl
        | exact (foldl_hSetKey_frame (α := Nat × Char)
            (fun c => toString c.1)
            (fun c => HVal.prim (.hstr (String.mk [c.2]))) tRef
            s.toList.enum h).2 r hr
  · simp only [hObjAssign]
    rcases hd : h.getD s (.hobj []) with fs | xs
    · exact (foldl_hSetKey_frame Prod.fst Prod.snd tRef fs h).2 r hr
    · exact (foldl_hSetKey_frame (α := Nat × HVal) (fun c => toString c.1)
        Prod.snd tRef xs.enum h).2 r hr

/-- Destructor for a successful `Except.map`. -/
theorem except_map_ok {α β : Type} {f : α → β} {x : Except String α} {b : β}
    (h : x.map f = .ok b) : ∃ a, x = .ok a ∧ f a = b := by
  cases x with
  | ok a =>
    refine ⟨a, rfl, ?_⟩
    injection h with he
  | error e => exact Except.noConfusion h

/-- The push loop only grows the heap and leaves slots below `n` (the frame
bound, at most the push target) untouched, for any frame-respecting
recursive compile. -/
theorem pushCompiledStore_frame
    (recurse : SHeap → HVal → Except String (SHeap × HVal))
    (hrec : RecurseFrame recurse) (aref n : Nat) (hn : n ≤ aref) :
    ∀ (stmts : List HVal) (h h' : SHeap),
      pushCompiledStore recurse aref stmts h = .ok h' →
      n ≤ h.length →
      h.length ≤ h'.length ∧ ∀ r, r < n → h'.get? r = h.get? r := by
  intro stmts
  induction stmts with
  | nil =>
    intro h h' hok _
    injection hok with he
    subst he
    exact ⟨Nat.le_refl _, fun _ _ => rfl⟩
  | cons stmt rest ih =>
    intro h h' hok hnh
    rw [pushCompiledStore] at hok
    cases hc : recurse h stmt with
    | error e => rw [hc] at hok; exact Except.noConfusion hok
    | ok c =>
      rw [hc] at hok
      obtain ⟨hlen1, hagree1⟩ := hrec h stmt c.1 c.2 hc
      have hrest := ih (hPush c.1 aref c.2) h' hok
        (by rw [hPush_length]; omega)
      refine ⟨?_, fun r hr => ?_⟩
      · have := hrest.1
        rw [hPush_length] at this
        omega
      · rw [hrest.2 r hr, hPush_get?_ne _ _ _ _ (by omega),
          hagree1 r (by omega)]

/-- `convertLogicalOperator` on the heap only grows the heap and leaves
every pre-existing slot untouched. -/
theorem convertLogicalOperatorStore_frame
    (recurse : SHeap → HVal → Except String (SHeap × HVal))
    (hrec : RecurseFrame recurse) (fieldType : String) (fieldValue : HVal)
    (fieldName : String) (h h' : SHeap) (out : HVal)
    (hok : convertLogicalOperatorStore recurse fieldType fieldValue
      fieldName h = .ok (h', out)) :
    h.length ≤ h'.length ∧ ∀ r, r < h.length → h'.get? r = h.get? r := by
  unfold convertLogicalOperatorStore at hok
  split at hok
  · injection hok with he
    have h1 : h = h' := congrArg Prod.fst he
    subst h1
    exact ⟨Nat.le_refl _, fun _ _ => rfl⟩
  · split at hok
    · split at hok
      · obtain ⟨h3, hp, hfb⟩ := except_map_ok hok
        have hh' : h3 = h' := congrArg Prod.fst hfb
        subst hh'
        have hframe := pushCompiledStore_frame recurse hrec
          (hAlloc h (.harr [])).2 h.length (by simp [hAlloc]) _ _ _ hp
          (by simp [hAlloc])
        refine ⟨?_, fun r hr => ?_⟩
        · have h2 := hframe.1
          simp [hAlloc] at h2
          omega
        · rw [hframe.2 r hr, hAlloc_get? _ _ _ (by simp [hAlloc]; omega),
            hAlloc_get? _ _ _ hr]
      · exact Except.noConfusion hok
    · exact Except.noConfusion hok

/-- Returning a single fresh allocation preserves all existing slots. -/
theorem allocReturn_frame (h : SHeap) (o : HObj) (h' : SHeap) (out : HVal)
    (he : (Except.ok ((hAlloc h o).1, HVal.ref (hAlloc h o).2) :
      Except String (SHeap × HVal)) = .ok (h', out)) :
    h.length ≤ h'.length ∧ ∀ r, r < h.length → h'.get? r = h.get? r := by
  injection he with he2
  have hh : (hAlloc h o).1 = h' := congrArg Prod.fst he2
  subst hh
  exact ⟨by simp [hAlloc], fun r hr => hAlloc_get? h o r hr⟩

/-- Returning the heap unchanged trivially preserves it. -/
theorem idReturn_frame (h : SHeap) (v : HVal) (h' : SHeap) (out : HVal)
    (he : (Except.ok (h, v) : Except String (SHeap × HVal)) = .ok (h', out)) :
    h.length ≤ h'.length ∧ ∀ r, r < h.length → h'.get? r = h.get? r := by
  injection he with he2
  have hh : h = h' := congrArg Prod.fst he2
  subst hh
  exact ⟨Nat.le_refl _, fun _ _ => rfl⟩

/-- Returning two nested fresh allocations preserves all existing slots. -/
theorem allocAllocReturn_frame (h : SHeap) (o1 o2 : HObj) (h' : SHeap)
    (out : HVal)
    (he : (Except.ok ((hAlloc (hAlloc h o1).1 o2).1,
        HVal.ref (hAlloc (hAlloc h o1).1 o2).2) :
      Except String (SHeap × HVal)) = .ok (h', out)) :
    h.length ≤ h'.length ∧ ∀ r, r < h.length → h'.get? r = h.get? r := by
  injection he with he2
  have hh : (hAlloc (hAlloc h o1).1 o2).1 = h' := congrArg Prod.fst he2
  subst hh
  refine ⟨by simp [hAlloc], fun r hr => ?_⟩
  rw [hAlloc_get? _ _ _ (by simp [hAlloc]; omega), hAlloc_get? _ _ _ hr]

/-- The heap operator table only grows the heap and leaves every
pre-existing slot untouched. -/
theorem convertSearchOperatorStore_frame
    (recurse : SHeap → HVal → Except String (SHeap × HVal))
    (hrec : RecurseFrame recurse) (fieldName : Option String)
    (fieldType : String) (fieldValue : HVal) (h h' : SHeap) (out : HVal)
    (hok : convertSearchOperatorStore recurse fieldName fieldType fieldValue
      h = .ok (h', out)) :
    h.length ≤ h'.length ∧ ∀ r, r < h.length → h'.get? r = h.get? r := by
  rcases fieldName with _ | name
  · exact idReturn_frame _ _ _ _ hok
  by_cases e1 : name = "ne"
  · subst e1; exact allocReturn_frame _ _ _ _ hok
  by_cases e2 : name = "eq"
  · subst e2; exact idReturn_frame _ _ _ _ hok
  by_cases e3 : name = "le"
  · subst e3; exact allocReturn_frame _ _ _ _ hok
  by_cases e4 : name = "lt"
  · subst e4; exact allocReturn_frame _ _ _ _ hok
  by_cases e5 : name = "ge"
  · subst e5; exact allocReturn_frame _ _ _ _ hok
  by_cases e6 : name = "gt"
  · subst e6; exact allocReturn_frame _ _ _ _ hok
  by_cases e7 : name = "exists"
  · subst e7; exact allocReturn_frame _ _ _ _ hok
  by_cases e8 : name = "contains"
  · subst e8
    by_cases ft : fieldType = "string"
    · subst ft; exact allocReturn_frame _ _ _ _ hok
    · have hred : convertSearchOperatorStore recurse (some "contains")
          fieldType fieldValue h =
          (if (fieldType != "string") = true then
            (Except.ok (h, fieldValue) : Except String (SHeap × HVal))
          else
            .ok ((hAlloc h (.hobj [("$regex", fieldValue),
                    ("$options", .prim (.hstr "i"))])).1,
                 .ref (hAlloc h (.hobj [("$regex", fieldValue),
                    ("$options", .prim (.hstr "i"))])).2)) := rfl
      rw [hred, if_pos (by simp [ft])] at hok
      exact idReturn_frame _ _ _ _ hok
  by_cases e9 : name = "notContains"
  · subst e9
    by_cases ft : fieldType = "string"
    · subst ft; exact allocAllocReturn_frame _ _ _ _ _ hok
    · have hred : convertSearchOperatorStore recurse (some "notContains")
          fieldType fieldValue h =
          (if (fieldType != "string") = true then
            (Except.ok (h, fieldValue) : Except String (SHeap × HVal))
          else
            .ok ((hAlloc (hAlloc h (.hobj [("$regex", fieldValue),
                    ("$options", .prim (.hstr "i"))])).1
                    (.hobj [("$not",
                      .ref (hAlloc h (.hobj [("$regex", fieldValue),
                        ("$options", .prim (.hstr "i"))])).2)])).1,
                 .ref (hAlloc (hAlloc h (.hobj [("$regex", fieldValue),
                    ("$options", .prim (.hstr "i"))])).1
                    (.hobj [("$not",
                      .ref (hAlloc h (.hobj [("$regex", fieldValue),
                        ("$options", .prim (.hstr "i"))])).2)])).2)) := rfl
      rw [hred, if_pos (by simp [ft])] at hok
      exact idReturn_frame _ _ _ _ hok
  by_cases e10 : name = "between"
  · subst e10
    have hred : convertSearchOperatorStore recurse (some "between")
        fieldType fieldValue h =
        Except.bind (hIndexE h fieldValue (some "0")) (fun lo =>
          Except.bind (hIndexE h fieldValue (some "1")) (fun hi =>
            .ok ((hAlloc h (.hobj [("$gte", lo), ("$lte", hi)])).1,
                 .ref (hAlloc h (.hobj [("$gte", lo), ("$lte", hi)])).2))) :=
      rfl
    rw [hred] at hok
    cases h0 : hIndexE h fieldValue (some "0") with
    | error e => rw [h0] at hok; exact Except.noConfusion hok
    | ok lo =>
      rw [h0] at hok
      cases h1 : hIndexE h fieldValue (some "1") with
      | error e => rw [h1] at hok; exact Except.noConfusion hok
      | ok hi =>
        rw [h1] at hok
        exact allocReturn_frame _ _ _ _ hok
  by_cases e11 : name = "startsWith"
  · subst e11
    by_cases ft : fieldType = "string"
    · subst ft; exact allocReturn_frame _ _ _ _ hok
    · have hred : convertSearchOperatorStore recurse (some "startsWith")
          fieldType fieldValue h =
          (if (fieldType != "string") = true then
            (Except.ok (h, fieldValue) : Except String (SHeap × HVal))
          else
            .ok ((hAlloc h (.hobj [("$regex",
                    .prim (.hstr ("^" ++ hToString h (h.length + 1)
                      fieldValue))),
                    ("$options", .prim (.hstr "i"))])).1,
                 .ref (hAlloc h (.hobj [("$regex",
                    .prim (.hstr ("^" ++ hToString h (h.length + 1)
                      fieldValue))),
                    ("$options", .prim (.hstr "i"))])).2)) := rfl
      rw [hred, if_pos (by simp [ft])] at hok
      exact idReturn_frame _ _ _ _ hok
  by_cases e12 : name = "endsWith"
  · subst e12
    by_cases ft : fieldType = "string"
    · subst ft; exact allocReturn_frame _ _ _ _ hok
    · have hred : convertSearchOperatorStore recurse (some "endsWith")
          fieldType fieldValue h =
          (if (fieldType != "string") = true then
            (Except.ok (h, fieldValue) : Except String (SHeap × HVal))
          else
            .ok ((hAlloc h (.hobj [("$regex",
                    .prim (.hstr (hToString h (h.length + 1) fieldValue ++
                      "$"))),
                    ("$options", .prim (.hstr "i"))])).1,
                 .ref (hAlloc h (.hobj [("$regex",
                    .prim (.hstr (hToString h (h.length + 1) fieldValue ++
                      "$"))),
                    ("$options", .prim (.hstr "i"))])).2)) := rfl
      rw [hred, if_pos (by simp [ft])] at hok
      exact idReturn_frame _ _ _ _ hok
  by_cases e13 : name = "in"
  · subst e13
    by_cases ft : fieldType = "array"
    · subst ft; exact allocReturn_frame _ _ _ _ hok
    · have hred : convertSearchOperatorStore recurse (some "in")
          fieldType fieldValue h =
          (if (fieldType != "array") = true then
            (Except.ok (h, fieldValue) : Except String (SHeap × HVal))
          else
            .ok ((hAlloc h (.hobj [("$in", fieldValue)])).1,
                 .ref (hAlloc h (.hobj [("$in", fieldValue)])).2)) := rfl
      rw [hred, if_pos (by simp [ft])] at hok
      exact idReturn_frame _ _ _ _ hok
  by_cases e14 : name = "or"
  · subst e14
    exact convertLogicalOperatorStore_frame recurse hrec _ _ _ _ _ _ hok
  by_cases e15 : name = "and"
  · subst e15
    exact convertLogicalOperatorStore_frame recurse hrec _ _ _ _ _ _ hok
  have hred : convertSearchOperatorStore recurse (some name) fieldType
      fieldValue h = .ok (h, fieldValue) := by
    unfold convertSearchOperatorStore
    rw [if_neg (by simp [e1]), if_neg (by simp [e2]), if_neg (by simp [e3]),
      if_neg (by simp [e4]), if_neg (by simp [e5]), if_neg (by simp [e6]),
      if_neg (by simp [e7]), if_neg (by simp [e8]), if_neg (by simp [e9]),
      if_neg (by simp [e10]), if_neg (by simp [e11]),
      if_neg (by simp [e12]), if_neg (by simp [e13]),
      if_neg (by simp [e14]), if_neg (by simp [e15])]
  rw [hred] at hok
  exact idReturn_frame _ _ _ _ hok

/-- Reduce a bind of a ready value (`do let x ← Except.ok a; k x` to
`k a`). -/
theorem except_ok_bind {α β : Type} (a : α) (f : α → Except String β) :
    (Except.ok a : Except String α) >>= f = f a := rfl

/-- The per-field heap step writes only to the output slot `tRef` and to
fresh slots: everything below a frame bound `n ≤ tRef` survives. -/
theorem compileFieldValueStore_frame
    (recurse : SHeap → HVal → Except String (SHeap × HVal))
    (hrec : RecurseFrame recurse) (tRef : Nat) (field : String) (fv : HVal)
    (n : Nat) (hn : n ≤ tRef) (h h' : SHeap)
    (hok : compileFieldValueStore recurse tRef field fv h = .ok h')
    (hnh : n ≤ h.length) :
    h.length ≤ h'.length ∧ ∀ r, r < n → h'.get? r = h.get? r := by
  unfold compileFieldValueStore at hok
  cases hk : hObjectKeysE h fv with
  | error e => rw [hk] at hok; exact Except.noConfusion hok
  | ok innerKeys =>
    rw [hk] at hok
    simp only [except_ok_bind] at hok
    cases hi : hIndexE h fv innerKeys.head? with
    | error e => rw [hi] at hok; exact Except.noConfusion hok
    | ok fieldValue =>
      rw [hi] at hok
      simp only [except_ok_bind] at hok
      split at hok
      · cases hc : convertSearchOperatorStore recurse innerKeys.head?
            (hGetTypeof h fieldValue (.prim .hundefined)) fieldValue h with
        | error e => rw [hc] at hok; exact Except.noConfusion hok
        | ok c =>
          rw [hc] at hok
          simp only [except_ok_bind] at hok
          injection hok with he
          subst he
          obtain ⟨hlen, hagree⟩ := convertSearchOperatorStore_frame recurse
            hrec _ _ _ _ _ _ hc
          refine ⟨?_, fun r hr => ?_⟩
          · rw [hSetKey_length]; omega
          · rw [hSetKey_get?_ne _ _ _ _ _ (by omega), hagree r (by omega)]
      · split at hok
        · cases hc : convertSearchOperatorStore recurse (some field) "array"
              fv h with
          | error e => rw [hc] at hok; exact Except.noConfusion hok
          | ok c =>
            rw [hc] at hok
            simp only [except_ok_bind] at hok
            injection hok with he
            subst he
            obtain ⟨hlen, hagree⟩ := convertSearchOperatorStore_frame recurse
              hrec _ _ _ _ _ _ hc
            refine ⟨?_, fun r hr => ?_⟩
            · rw [hObjAssign_length]; omega
            · rw [hObjAssign_get?_ne _ _ _ _ (by omega), hagree r (by omega)]
        · injection hok with he
          subst he
          refine ⟨?_, fun r hr => ?_⟩
          · rw [hSetKey_length]
          · rw [hSetKey_get?_ne _ _ _ _ _ (by omega)]

/-- The driver's heap loop preserves every slot below a frame bound
`n ≤ tRef`. -/
theorem compileFieldsStore_frame
    (recurse : SHeap → HVal → Except String (SHeap × HVal))
    (hrec : RecurseFrame recurse) (filter : HVal) (tRef n : Nat)
    (hn : n ≤ tRef) :
    ∀ (fields : List String) (h h' : SHeap),
      compileFieldsStore recurse filter tRef fields h = .ok h' →
      n ≤ h.length →
      h.length ≤ h'.length ∧ ∀ r, r < n → h'.get? r = h.get? r := by
  intro fields
  induction fields with
  | nil =>
    intro h h' hok _
    injection hok with he
    subst he
    exact ⟨Nat.le_refl _, fun _ _ => rfl⟩
  | cons field rest ih =>
    intro h h' hok hnh
    rw [compileFieldsStore] at hok
    cases hfv : hIndexE h filter (some field) with
    | error e => rw [hfv] at hok; exact Except.noConfusion hok
    | ok fv =>
      rw [hfv] at hok
      simp only [except_ok_bind] at hok
      cases hcv : compileFieldValueStore recurse tRef field fv h with
      | error e => rw [hcv] at hok; exact Except.noConfusion hok
      | ok h2 =>
        rw [hcv] at hok
        simp only [except_ok_bind] at hok
        obtain ⟨hlen1, hagree1⟩ := compileFieldValueStore_frame recurse hrec
          tRef field fv n hn h h2 hcv hnh
        obtain ⟨hlen2, hagree2⟩ := ih h2 h' hok (by omega)
        exact ⟨by omega, fun r hr => by rw [hagree2 r hr, hagree1 r hr]⟩

/-- C7 (confirmed).  On the mutable-heap model, a successful compile never
mutates its input: every slot of the entry heap — in particular the input
filter object and everything reachable from it — is unchanged in the result
heap, and the returned compiled filter is a freshly allocated top-level
object, whose reference lies beyond every pre-existing reference and is
therefore distinct from the input's. -/
theorem c7_compile_never_mutates_input :
    ∀ (fuel : Nat) (h : SHeap) (v : HVal) (h' : SHeap) (out : HVal),
      toMongooseFilterExpressionStore fuel h v = .ok (h', out) →
      h.length ≤ h'.length ∧
      (∀ r, r < h.length → h'.get? r = h.get? r) ∧
      ∃ t, out = .ref t ∧ h.length ≤ t ∧ t < h'.length := by
  intro fuel
  induction fuel with
  | zero => intro h v h' out hok; exact Except.noConfusion hok
  | succ fuel ih =>
    have hrec : RecurseFrame
        (fun hh vv => toMongooseFilterExpressionStore fuel hh vv) := by
      intro h v h' out hok
      exact ⟨(ih h v h' out hok).1, (ih h v h' out hok).2.1⟩
    intro h v h' out hok
    rw [toMongooseFilterExpressionStore] at hok
    split at hok
    · exact Except.noConfusion hok
    · by_cases hv : v = HVal.prim HPrim.hundefined
      · rw [if_pos hv] at hok
        simp only [hAlloc] at hok
        obtain ⟨h3, hcf, hfb⟩ := except_map_ok hok
        have hh' : h3 = h' := congrArg Prod.fst hfb
        subst hh'
        obtain ⟨hlen, hagree⟩ := compileFieldsStore_frame _ hrec _ _
          h.length (by simp) _ _ _ hcf (by simp)
        refine ⟨?_, fun r hr => ?_, ?_⟩
        · simp at hlen ⊢
          omega
        · rw [hagree r hr]
          rw [List.get?_append (by simp; omega), List.get?_append hr]
        · refine ⟨(h ++ [HObj.hobj []]).length,
            (congrArg Prod.snd hfb).symm, by simp, ?_⟩
          simp at hlen ⊢
          omega
      · rw [if_neg hv] at hok
        simp only [hAlloc] at hok
        obtain ⟨h3, hcf, hfb⟩ := except_map_ok hok
        have hh' : h3 = h' := congrArg Prod.fst hfb
        subst hh'
        obtain ⟨hlen, hagree⟩ := compileFieldsStore_frame _ hrec _ _
          h.length (by simp) _ _ _ hcf (by simp)
        refine ⟨?_, fun r hr => ?_, ?_⟩
        · simp at hlen ⊢
          omega
        · rw [hagree r hr]
          rw [List.get?_append hr]
        · refine ⟨h.length, (congrArg Prod.snd hfb).symm, Nat.le_refl _, ?_⟩
          simp at hlen ⊢
          omega

/-- C7 witness: compiling the filter object `{a: "x"}` living at heap slot
0 leaves slot 0 intact and returns the fresh slot 1. -/
theorem c7_compile_never_mutates_input_witness :
    toMongooseFilterExpressionStore 1 [HObj.hobj [("a", .prim (.hstr "x"))]]
        (.ref 0) =
      .ok ([HObj.hobj [("a", .prim (.hstr "x"))],
            HObj.hobj [("a", .prim (.hstr "x"))]], .ref 1) ∧
    ([HObj.hobj [("a", .prim (.hstr "x"))],
      HObj.hobj [("a", .prim (.hstr "x"))]].get? 0 =
      [HObj.hobj [("a", .prim (.hstr "x"))]].get? 0) ∧
    ∃ t, (HVal.ref 1 : HVal) = .ref t ∧ 1 ≤ t ∧ t < 2 := by
  have hc : toMongooseFilterExpressionStore 1
      [HObj.hobj [("a", .prim (.hstr "x"))]] (.ref 0) =
      .ok ([HObj.hobj [("a", .prim (.hstr "x"))],
            HObj.hobj [("a", .prim (.hstr "x"))]], .ref 1) := rfl
  have h := c7_compile_never_mutates_input 1
    [HObj.hobj [("a", .prim (.hstr "x"))]] (.ref 0)
    [HObj.hobj [("a", .prim (.hstr "x"))],
     HObj.hobj [("a", .prim (.hstr "x"))]] (.ref 1) hc
  exact ⟨hc, h.2.1 0 (by decide), h.2.2⟩
